import Mathlib

/-! Verification development for the OpenAPI traffic auditor
(packages/api/src/api-test-helpers/audit/openapi-auditor.ts).

The TypeScript class OpenApiAuditor is shallowly embedded: JS arrays become
Lean lists, JS Map and Set (insertion ordered) become association lists and
duplicate-free lists grown at the tail, file-system side effects become
explicit effect lists, and fallible operations return Except.  Opaque JS
payload values (unknown) are modelled as Option String. -/

namespace Audit

/-- TrafficRecord interface from the source: method, url, status, and the two
payloads (request / response), which the auditor treats opaquely. -/
structure TrafficRecord where
  method : String
  url : String
  status : Nat
  request : Option String
  response : Option String
deriving DecidableEq, Repr

/-- AuditorOptions from the source, minus the injected fileOps (file
operations are modelled separately, as explicit effects or Except valued
functions). -/
structure AuditorOptions where
  schemaPath : String
  trafficDir : String
  reportPath : String
deriving DecidableEq, Repr

/-- In-memory auditor state: the private traffic list of the class. -/
structure AuditorState where
  traffic : List TrafficRecord
deriving DecidableEq, Repr

/-- Effect alphabet for the writeTraffic model: a successful mkdir, a
successful file write (the JSON serialization of the traffic list is
modelled as the list itself), and a console log line. -/
inductive WEff where
  | mkdirEff (path : String)
  | writeEff (path : String) (content : List TrafficRecord)
  | logEff (msg : String)
deriving DecidableEq, Repr

/-- Records appended to the in-memory log by the recorder between calls
(this.traffic.push in the onSend hook). -/
def appendRecords (st : AuditorState) (rs : List TrafficRecord) : AuditorState :=
  { traffic := st.traffic ++ rs }

/-- Embedding of OpenApiAuditor.writeTraffic (source lines 148-184): early
return when the log is empty, otherwise mkdir the traffic directory, write
the log to trafficDir/testSuiteName.json, log, and clear the in-memory log.
File operations are assumed to succeed here; the try/catch of the source is
modelled in the teardown embedding. -/
def writeTraffic (opts : AuditorOptions) (st : AuditorState) (testSuiteName : String) :
    AuditorState × List WEff :=
  if st.traffic.length = 0 then
    (st, [WEff.logEff ("No traffic to write for " ++ testSuiteName)])
  else
    ({ traffic := [] },
     [WEff.mkdirEff opts.trafficDir,
      WEff.writeEff (opts.trafficDir ++ "/" ++ testSuiteName ++ ".json") st.traffic,
      WEff.logEff ("📊 Traffic written: " ++ opts.trafficDir ++ "/" ++ testSuiteName ++
        ".json (" ++ toString st.traffic.length ++ " requests)")])

/-- File writes contained in an effect list, with their contents. -/
def writesOf (effs : List WEff) : List (String × List TrafficRecord) :=
  effs.filterMap fun e =>
    match e with
    | WEff.writeEff p c => some (p, c)
    | _ => none

/-- Directory creations contained in an effect list. -/
def mkdirsOf (effs : List WEff) : List String :=
  effs.filterMap fun e =>
    match e with
    | WEff.mkdirEff p => some p
    | _ => none

/-- Reference store giving JS arrays of traffic records explicit addresses,
so that aliasing claims about getTraffic can be stated: the auditor keeps
its log at some address, and mutating one address never changes another. -/
abbrev Store := List (List TrafficRecord)

/-- Embedding of OpenApiAuditor.getTraffic (source lines 141-143):
return a spread copy [...this.traffic].  In the reference store
this allocates a fresh address holding a copy of the contents at the
auditor address, and returns that fresh address. -/
def getTraffic (store : Store) (auditorAddr : Nat) : Store × Nat :=
  (store ++ [store.getD auditorAddr []], store.length)

/-- Mutation of the array at an address (push, pop, splice all specialize
to replacing the contents with some new list). -/
def storeWrite (store : Store) (addr : Nat) (v : List TrafficRecord) : Store :=
  store.set addr v

/-- Contents at an address. -/
def storeRead (store : Store) (addr : Nat) : List TrafficRecord :=
  store.getD addr []

/-- Draft record held on the request object (request.__traffic): method and
url from onRequest, request body filled in by the preHandler hook. -/
structure Draft where
  method : String
  url : String
  request : Option String
deriving DecidableEq, Repr

/-- Events delivered by the Fastify instance to the three hooks registered
by registerPlugin (source lines 37-69).  rid identifies the request object
the hook is invoked with; an onSend event carries the finalized status code
and the serialized payload. -/
inductive FEvent where
  | onRequest (rid : Nat) (method url : String)
  | preHandler (rid : Nat) (body : Option String)
  | onSend (rid : Nat) (statusCode : Nat) (payload : Option String)
deriving DecidableEq, Repr

/-- Recorder state: the shared traffic log plus the per-request draft
(request.__traffic), keyed by request identity. -/
structure RecorderState where
  traffic : List TrafficRecord
  drafts : List (Nat × Draft)
deriving DecidableEq, Repr

/-- Upsert in an association list: replace the first binding of the key, or
append a new binding (a JS property write). -/
def setAssoc (l : List (Nat × Draft)) (k : Nat) (v : Draft) : List (Nat × Draft) :=
  match l with
  | [] => [(k, v)]
  | (k', v') :: rest => if k' = k then (k, v) :: rest else (k', v') :: setAssoc rest k v

/-- Property read in an association list. -/
def lookupAssoc (l : List (Nat × Draft)) (k : Nat) : Option Draft :=
  match l with
  | [] => none
  | (k', v') :: rest => if k' = k then some v' else lookupAssoc rest k

/-- parseResponsePayload (source lines 470-479) attempts JSON.parse on a
string payload and falls back to the raw payload; payload values are opaque
in this model, so the parse attempt is the identity on the opaque value. -/
def parseResponsePayload (payload : Option String) : Option String :=
  payload

/-- One hook invocation of the plugin installed by registerPlugin:
onRequest initializes the draft with method and url, preHandler copies the
parsed body onto an existing draft, and onSend, when a draft exists, stamps
it with the reply status code and parsed payload and pushes it onto the
shared traffic log.  The draft is not removed or marked after the push,
exactly as in the source. -/
def recStep (st : RecorderState) (e : FEvent) : RecorderState :=
  match e with
  | FEvent.onRequest rid m u =>
    { st with drafts := setAssoc st.drafts rid ⟨m, u, none⟩ }
  | FEvent.preHandler rid b =>
    match lookupAssoc st.drafts rid with
    | some d => { st with drafts := setAssoc st.drafts rid { d with request := b } }
    | none => st
  | FEvent.onSend rid s p =>
    match lookupAssoc st.drafts rid with
    | some d =>
      { st with traffic := st.traffic ++ [⟨d.method, d.url, s, d.request, parseResponsePayload p⟩] }
    | none => st

/-- Run of the recorder over a sequence of hook invocations. -/
def runTrace (st : RecorderState) (evs : List FEvent) : RecorderState :=
  evs.foldl recStep st

/-- Number of onSend events in a trace. -/
def countSends (evs : List FEvent) : Nat :=
  (evs.filter fun e =>
    match e with
    | FEvent.onSend _ _ _ => true
    | _ => false).length

/-- Well-formed trace relative to a set of already-seen request ids: every
onSend is for a request whose onRequest hook already ran. -/
def sendsCovered (seen : List Nat) (evs : List FEvent) : Bool :=
  match evs with
  | [] => true
  | FEvent.onRequest rid _ _ :: rest => sendsCovered (rid :: seen) rest
  | FEvent.preHandler _ _ :: rest => sendsCovered seen rest
  | FEvent.onSend rid _ _ :: rest => decide (rid ∈ seen) && sendsCovered seen rest

/-- Split of a character list at every occurrence of a separator, the JS
String.prototype.split semantics for a one-character separator: n
separators yield n plus one (possibly empty) segments. -/
def splitChar (sep : Char) : List Char → List (List Char)
  | [] => [[]]
  | c :: cs =>
    match splitChar sep cs with
    | [] => [[]]
    | s :: rest => if c = sep then [] :: s :: rest else (c :: s) :: rest

/-- Join of segments with a separator, inverse of splitChar. -/
def intercalateChar (sep : Char) : List (List Char) → List Char
  | [] => []
  | [s] => s
  | s :: rest => s ++ sep :: intercalateChar sep rest

/-- Character lists free of path separators. -/
def noSlash (c : List Char) : Bool :=
  c.all (fun d => decide (d ≠ '/'))

/-- url.split with separator ? taken at index 0: the prefix of the url up
to the first question mark (the whole url when it has no query). -/
def stripQuery (url : String) : String :=
  String.mk (url.data.takeWhile (fun c => c ≠ '?'))

/-- Pattern tokens of the regular expression built by normalizePathForSchema
(source line 460): schemaPath.replace of every brace group with the atom
any-one-or-more-non-slash, anchored on both sides.  A lit token is an
ordinary character matched literally, dot is the JS regex wildcard (any
character except a line terminator), ph is the non-slash repetition atom
substituted for a parameter placeholder.  The model covers exactly the
patterns whose remaining characters carry no other regex metacharacter,
which is the domain used in every theorem below. -/
inductive PTok where
  | lit (c : Char)
  | dot
  | ph
deriving DecidableEq, Repr

/-- Index of the closing brace for the leftmost brace-group match: the
regex brace group needs at least one non-closing-brace character before
the closing brace, mirroring one global replace step. -/
def braceIdx (s : List Char) : Option Nat :=
  let k := (s.takeWhile (fun c => c ≠ '\x7d')).length
  if k = 0 ∨ k = s.length then none else some k

/-- Tokenization of a schema path into the pattern the source compiles:
each brace group becomes one ph atom, a dot stays a wildcard, every other
character is a literal. -/
def tokenize : List Char → List PTok
  | [] => []
  | c :: rest =>
    if c = '\x7b' then
      match braceIdx rest with
      | some k => PTok.ph :: tokenize (rest.drop (k + 1))
      | none => PTok.lit c :: tokenize rest
    else if c = '.' then PTok.dot :: tokenize rest
    else PTok.lit c :: tokenize rest
termination_by s => s.length
decreasing_by
  all_goals simp [List.length_drop]
  all_goals omega

/-- Anchored match of a whole string against a token pattern, with the JS
backtracking semantics: ph consumes one non-slash character and may either
stop or keep consuming.  The string comes first so that the recursion is
structural on it. -/
def tokMatch : List Char → List PTok → Bool
  | [], [] => true
  | _ :: _, [] => false
  | [], _ :: _ => false
  | d :: ds, PTok.lit c :: ts => decide (c = d) && tokMatch ds ts
  | d :: ds, PTok.dot :: ts => decide (d ≠ '\n') && decide (d ≠ '\r') && tokMatch ds ts
  | d :: ds, PTok.ph :: ts =>
    decide (d ≠ '/') && (tokMatch ds ts || tokMatch ds (PTok.ph :: ts))

/-- normalizePathForSchema (source lines 448-468): strip the query, return
the cleaned url itself when it is a key of the paths object (path item
values are JS objects, hence truthy, so the truthiness test of the source
is key membership), otherwise return the first schema path whose compiled
pattern matches the cleaned url, in declared key order. -/
def normalizePathForSchema {α : Type} (url : String) (schemaPaths : List (String × α)) :
    Option String :=
  let cleanUrl := stripQuery url
  if schemaPaths.any (fun kv => decide (kv.1 = cleanUrl)) then some cleanUrl
  else (schemaPaths.map Prod.fst).find? (fun p => tokMatch cleanUrl.data (tokenize p.data))

/-- String.prototype.toUpperCase modelled characterwise (the report only
upper-cases ASCII method names). -/
def strUpper (s : String) : String :=
  String.mk (s.data.map Char.toUpper)

/-- String.prototype.toLowerCase modelled characterwise. -/
def strLower (s : String) : String :=
  String.mk (s.data.map Char.toLower)

/-- OpenAPI path item: JS object mapping method names (plus possibly the
non-method key parameters) to the declared response status codes; response
object keys are modelled by their numeric status value, and JS objects keep
key insertion order. -/
abbrev PathItem := List (String × List Nat)

/-- Parsed OpenAPI schema: the paths object. -/
structure Schema where
  paths : List (String × PathItem)
deriving DecidableEq, Repr

/-- Insertion into a JS Set modelled as a duplicate-free list in insertion
order: adding an existing element leaves the set unchanged, a new element
goes to the end. -/
def insertSet {α : Type} [DecidableEq α] (s : List α) (x : α) : List α :=
  if x ∈ s then s else s ++ [x]

/-- Map lookup by string key (first binding wins; JS object and Map keys
are unique). -/
def lookupStr {β : Type} (l : List (String × β)) (k : String) : Option β :=
  match l with
  | [] => none
  | (k', v) :: rest => if k' = k then some v else lookupStr rest k

/-- The source pattern map.get(k).add(v) with a fresh empty set installed
first when k is absent: update the binding of k in place, or append a new
binding holding the one-element set. -/
def addStatus (l : List (String × List Nat)) (k : String) (v : Nat) :
    List (String × List Nat) :=
  match l with
  | [] => [(k, [v])]
  | (k', s) :: rest =>
    if k' = k then (k', insertSet s v) :: rest else (k', s) :: addStatus rest k v

/-- Nested update for testedMethodsWithStatus: path to method to status
set. -/
def addMethodStatus (l : List (String × List (String × List Nat))) (path method : String)
    (v : Nat) : List (String × List (String × List Nat)) :=
  match l with
  | [] => [(path, [(method, [v])])]
  | (p, mm) :: rest =>
    if p = path then (p, addStatus mm method v) :: rest
    else (p, mm) :: addMethodStatus rest path method v

/-- Accumulators of the traffic analysis loop of generateReport (source
lines 266-303): testedPaths, testedMethodsWithStatus and
undocumentedEndpoints. -/
structure CovState where
  testedPaths : List String
  testedMWS : List (String × List (String × List Nat))
  undocumented : List (String × List Nat)
deriving DecidableEq, Repr

/-- One iteration of the traffic analysis loop: a record whose url
normalizes to a declared path marks that path tested and records the
lower-cased method with the observed status; an unmatched record goes into
undocumentedEndpoints keyed by the upper-cased method and the raw record
url, accumulating observed statuses. -/
def covStep (paths : List (String × PathItem)) (st : CovState) (record : TrafficRecord) :
    CovState :=
  match normalizePathForSchema record.url paths with
  | some normalizedPath =>
    { st with
      testedPaths := insertSet st.testedPaths normalizedPath,
      testedMWS := addMethodStatus st.testedMWS normalizedPath (strLower record.method)
        record.status }
  | none =>
    { st with
      undocumented := addStatus st.undocumented
        (strUpper record.method ++ " " ++ record.url) record.status }

/-- Traffic analysis loop over all records in order. -/
def analyzeTraffic (paths : List (String × PathItem)) (traffic : List TrafficRecord) :
    CovState :=
  traffic.foldl (covStep paths) ⟨[], [], []⟩

/-- Method keys of a path item: every key except parameters. -/
def methodsOf (pathObj : PathItem) : List String :=
  (pathObj.map Prod.fst).filter (fun key => decide (key ≠ "parameters"))

/-- Declared response statuses of a method (empty when absent, the
or-empty-object fallback of the source). -/
def responsesOf (pathObj : PathItem) (method : String) : List Nat :=
  match lookupStr pathObj method with
  | some rs => rs
  | none => []

/-- Statuses recorded as tested for a path and method (empty set fallback
as in the source). -/
def testedStatusesFor (st : CovState) (pathKey method : String) : List Nat :=
  match lookupStr st.testedMWS pathKey with
  | some mm =>
    match lookupStr mm method with
    | some s => s
    | none => []
  | none => []

/-- totalMethodStatusCombos of the source: declared (method, status) pairs
summed over all paths. -/
def totalCombos (paths : List (String × PathItem)) : Nat :=
  paths.foldl (fun acc kv =>
    (methodsOf kv.2).foldl (fun a m => a + (responsesOf kv.2 m).length) acc) 0

/-- testedMethodStatusCombos of the source: declared (method, status) pairs
whose status was observed for that path and method. -/
def testedCombos (paths : List (String × PathItem)) (st : CovState) : Nat :=
  paths.foldl (fun acc kv =>
    (methodsOf kv.2).foldl (fun a m =>
      a + ((responsesOf kv.2 m).filter
        (fun s => decide (s ∈ testedStatusesFor st kv.1 m))).length) acc) 0

/-- Math.round of the percentage tested/total times 100 as interpolated
into the report.  The JS double division yields NaN for zero over zero and
Infinity for positive over zero; otherwise the model rounds the exact
rational to the nearest integer, halves upward, which coincides with the
double computation on report-sized operands. -/
def pctString (tested total : Nat) : String :=
  if total = 0 then (if tested = 0 then "NaN" else "Infinity")
  else toString ((200 * tested + total) / (2 * total))

/-- Lexicographic comparison of character lists by code point, the JS
default sort order of strings. -/
def lexLe (a b : List Char) : Bool :=
  match a, b with
  | [], _ => true
  | _ :: _, [] => false
  | x :: xs, y :: ys => if x = y then lexLe xs ys else decide (x < y)

/-- Array.prototype.sort default comparator applied to numbers: compare
their decimal string forms. -/
def jsLeNat (a b : Nat) : Bool :=
  lexLe (toString a).data (toString b).data

def insertSorted (le : Nat → Nat → Bool) (x : Nat) : List Nat → List Nat
  | [] => [x]
  | y :: ys => if le x y then x :: y :: ys else y :: insertSorted le x ys

/-- Sorted copy of a status list under the JS default sort order. -/
def sortJs (l : List Nat) : List Nat :=
  l.foldr (insertSorted jsLeNat) []

/-- Array.prototype.join with separator comma-space. -/
def joinComma (l : List String) : String :=
  String.intercalate ", " l

/-- untestedPaths of the source: declared paths never marked tested. -/
def untestedPaths (paths : List (String × PathItem)) (st : CovState) : List String :=
  (paths.map Prod.fst).filter (fun p => decide (p ∉ st.testedPaths))

/-- hasUntestedCombos flag of the source loop: some declared method carries
a declared status not observed for this path. -/
def hasUntestedCombos (pathObj : PathItem) (st : CovState) (pathKey : String) : Bool :=
  (methodsOf pathObj).any (fun m =>
    (responsesOf pathObj m).any (fun s => decide (s ∉ testedStatusesFor st pathKey m)))

/-- partiallyTestedPaths of the source: tested paths that still have an
untested declared (method, status) combination. -/
def partTestedPaths (paths : List (String × PathItem)) (st : CovState) : List String :=
  (paths.filter (fun kv =>
    decide (kv.1 ∈ st.testedPaths) && hasUntestedCombos kv.2 st kv.1)).map Prod.fst

/-- Path item of a declared path (the source indexes paths by a key taken
from its own key list, so the lookup succeeds; empty item fallback). -/
def pathItemFor (paths : List (String × PathItem)) (p : String) : PathItem :=
  match lookupStr paths p with
  | some obj => obj
  | none => []

/-- generateReport (source lines 264-442), transliterated statement by
statement; every let rebinding of report mirrors one report += of the
source, and now stands for new Date().toISOString(). -/
def generateReport (schema : Schema) (traffic : List TrafficRecord) (now : String) : String :=
  let paths := schema.paths
  let st := analyzeTraffic paths traffic
  let report := "# OpenAPI Traffic Audit Report\n\n"
  let report := report ++ "**Generated:** " ++ now ++ "\n\n"
  let report := report ++ "## Coverage Summary\n\n"
  let report := report ++ "- **Paths Tested:** " ++ toString st.testedPaths.length ++ "/" ++
    toString paths.length ++ " (" ++ pctString st.testedPaths.length paths.length ++ "%)\n"
  let report := report ++ "- **Method/Status Combinations Tested:** " ++
    toString (testedCombos paths st) ++ "/" ++ toString (totalCombos paths) ++ " (" ++
    pctString (testedCombos paths st) (totalCombos paths) ++ "%)\n"
  let report := report ++ "- **Total Requests:** " ++ toString traffic.length ++ "\n"
  let report :=
    if 0 < st.undocumented.length then
      report ++ "- **Undocumented Endpoints Found:** " ++ toString st.undocumented.length ++ "\n"
    else report
  let report := report ++ "\n"
  let report :=
    if 0 < st.undocumented.length then
      report ++ "## 🚨 Undocumented Endpoints\n\n" ++
        "*These endpoints were found in traffic but are not documented in the OpenAPI schema:*\n\n" ++
        st.undocumented.foldl (fun acc kv =>
          acc ++ "### `" ++ kv.1 ++ "`\n" ++ "- Status codes: " ++
            joinComma ((sortJs kv.2).map toString) ++ "\n\n") ""
    else report
  let report := report ++ "## ✅ Tested Endpoints\n\n"
  let report := report ++ st.testedMWS.foldl (fun acc pm =>
    acc ++ "### `" ++ pm.1 ++ "`\n" ++
      pm.2.foldl (fun a ms =>
        a ++ "- **" ++ strUpper ms.1 ++ "**: " ++
          joinComma ((sortJs ms.2).map toString) ++ "\n") "" ++
      "\n") ""
  let report :=
    if 0 < (untestedPaths paths st).length ∨ 0 < (partTestedPaths paths st).length then
      report ++ "## ❌ Missing Coverage\n\n" ++
        (if 0 < (untestedPaths paths st).length then
          "### Completely Untested Endpoints\n\n" ++
          (untestedPaths paths st).foldl (fun acc path =>
            acc ++ "#### `" ++ path ++ "`\n" ++
              (methodsOf (pathItemFor paths path)).foldl (fun a m =>
                a ++ "- **" ++ strUpper m ++ "**: " ++
                  joinComma ((responsesOf (pathItemFor paths path) m).map toString) ++ "\n") "" ++
              "\n") ""
        else "") ++
        (if 0 < (partTestedPaths paths st).length then
          "### Missing Status Code Coverage\n\n" ++
          (partTestedPaths paths st).foldl (fun acc path =>
            acc ++ "#### `" ++ path ++ "`\n" ++
              (methodsOf (pathItemFor paths path)).foldl (fun a m =>
                let missing := (responsesOf (pathItemFor paths path) m).filter
                  (fun s => decide (s ∉ testedStatusesFor st path m))
                if 0 < missing.length then
                  a ++ "- **" ++ strUpper m ++ "**: Missing " ++
                    joinComma (missing.map toString) ++ "\n"
                else a) "" ++
              "\n") ""
        else "")
    else report
  report

/-- generateEmptyReport (source lines 444-446). -/
def generateEmptyReport (now : String) : String :=
  "# OpenAPI Traffic Audit Report\n\n**Generated:** " ++ now ++
    "\n\n⚠️ No traffic data found. Make sure integration tests are running with traffic recording enabled.\n"

/-- Header and coverage-summary lines of the report (source lines 329-338),
as one standalone section for the structural statement of the rendering
order. -/
def summarySection (paths : List (String × PathItem)) (st : CovState) (trafficLen : Nat)
    (now : String) : String :=
  "# OpenAPI Traffic Audit Report\n\n" ++ "**Generated:** " ++ now ++ "\n\n" ++
    "## Coverage Summary\n\n" ++
    "- **Paths Tested:** " ++ toString st.testedPaths.length ++ "/" ++
    toString paths.length ++ " (" ++ pctString st.testedPaths.length paths.length ++ "%)\n" ++
    "- **Method/Status Combinations Tested:** " ++
    toString (testedCombos paths st) ++ "/" ++ toString (totalCombos paths) ++ " (" ++
    pctString (testedCombos paths st) (totalCombos paths) ++ "%)\n" ++
    "- **Total Requests:** " ++ toString trafficLen ++ "\n" ++
    (if 0 < st.undocumented.length then
      "- **Undocumented Endpoints Found:** " ++ toString st.undocumented.length ++ "\n"
    else "") ++
    "\n"

/-- Undocumented Endpoints section (source lines 341-350); empty string
when no undocumented traffic exists. -/
def undocSection (st : CovState) : String :=
  if 0 < st.undocumented.length then
    "## 🚨 Undocumented Endpoints\n\n" ++
      "*These endpoints were found in traffic but are not documented in the OpenAPI schema:*\n\n" ++
      st.undocumented.foldl (fun acc kv =>
        acc ++ "### `" ++ kv.1 ++ "`\n" ++ "- Status codes: " ++
          joinComma ((sortJs kv.2).map toString) ++ "\n\n") ""
  else ""

/-- Tested Endpoints section (source lines 352-361); its heading is
unconditional in the source. -/
def testedSection (st : CovState) : String :=
  "## ✅ Tested Endpoints\n\n" ++
    st.testedMWS.foldl (fun acc pm =>
      acc ++ "### `" ++ pm.1 ++ "`\n" ++
        pm.2.foldl (fun a ms =>
          a ++ "- **" ++ strUpper ms.1 ++ "**: " ++
            joinComma ((sortJs ms.2).map toString) ++ "\n") "" ++
        "\n") ""

/-- Missing Coverage section (source lines 395-439); empty string when no
path is completely untested and none is partially tested. -/
def missingSection (paths : List (String × PathItem)) (st : CovState) : String :=
  if 0 < (untestedPaths paths st).length ∨ 0 < (partTestedPaths paths st).length then
    "## ❌ Missing Coverage\n\n" ++
      (if 0 < (untestedPaths paths st).length then
        "### Completely Untested Endpoints\n\n" ++
        (untestedPaths paths st).foldl (fun acc path =>
          acc ++ "#### `" ++ path ++ "`\n" ++
            (methodsOf (pathItemFor paths path)).foldl (fun a m =>
              a ++ "- **" ++ strUpper m ++ "**: " ++
                joinComma ((responsesOf (pathItemFor paths path) m).map toString) ++ "\n") "" ++
            "\n") ""
      else "") ++
      (if 0 < (partTestedPaths paths st).length then
        "### Missing Status Code Coverage\n\n" ++
        (partTestedPaths paths st).foldl (fun acc path =>
          acc ++ "#### `" ++ path ++ "`\n" ++
            (methodsOf (pathItemFor paths path)).foldl (fun a m =>
              let missing := (responsesOf (pathItemFor paths path) m).filter
                (fun s => decide (s ∉ testedStatusesFor st path m))
              if 0 < missing.length then
                a ++ "- **" ++ strUpper m ++ "**: Missing " ++
                  joinComma (missing.map toString) ++ "\n"
              else a) "" ++
            "\n") ""
      else "")
  else ""

/-- File operations port of the auditor (readFile, writeFile, mkdir, glob),
with a thrown error modelled as an Except error carrying the message. -/
structure FileOps where
  readFile : String → Except String String
  writeFile : String → String → Except String Unit
  mkdir : String → Except String Unit
  glob : String → Except String (List String)

/-- getDir (source lines 481-483): drop the final path component (split at
every slash, drop the last segment, join with slashes). -/
def getDir (filePath : String) : String :=
  String.mk (intercalateChar '/' ((splitChar '/' filePath.data).dropLast))

/-- Loading loop of generateAuditReport over the globbed traffic files:
read and parse each file, concatenating the record arrays in file order;
the first failing read or parse aborts the loop with that error. -/
def loadTrafficFiles (fs : FileOps) (parseTraffic : String → Except String (List TrafficRecord)) :
    List String → Except String (List TrafficRecord)
  | [] => Except.ok []
  | file :: rest => do
    let content ← fs.readFile file
    let t ← parseTraffic content
    let more ← loadTrafficFiles fs parseTraffic rest
    Except.ok (t ++ more)

/-- generateAuditReport (source lines 238-262): read and parse the schema
file, glob and load every traffic snapshot, and return the placeholder
report when no record was loaded, the full report otherwise.  JSON.parse is
modelled by the abstract parser parameters parseSchema and parseTraffic;
any error escapes to the caller, since the source has no try block here. -/
def generateAuditReport (fs : FileOps) (parseSchema : String → Except String Schema)
    (parseTraffic : String → Except String (List TrafficRecord))
    (opts : AuditorOptions) (now : String) : Except String String := do
  let schemaContent ← fs.readFile opts.schemaPath
  let schema ← parseSchema schemaContent
  let trafficFiles ← fs.glob (opts.trafficDir ++ "/*.json")
  let allTraffic ← loadTrafficFiles fs parseTraffic trafficFiles
  if allTraffic.length = 0 then Except.ok (generateEmptyReport now)
  else Except.ok (generateReport schema allTraffic now)

/-- Effects of the teardown orchestration: successful file-system calls in
order, the console.error of the catch block, and the final console.log.
Informational console.log lines inside the try block are not modelled. -/
inductive TEff where
  | mkdirEff (path : String)
  | writeEff (path content : String)
  | logErrEff (msg : String)
  | logEff (msg : String)
deriving DecidableEq, Repr

/-- Body of the try block of teardown (source lines 104-130): when the log
is non-empty, mkdir the traffic directory and write the aggregate snapshot
(serialization of records abstracted by serialize); then generate the audit
report, mkdir the report directory and write the report.  Returns the
successful effects in order and, when some operation throws, the error that
reaches the catch. -/
def teardownTry (fs : FileOps) (parseSchema : String → Except String Schema)
    (parseTraffic : String → Except String (List TrafficRecord))
    (serialize : List TrafficRecord → String) (opts : AuditorOptions) (now : String)
    (st : AuditorState) : List TEff × Option String :=
  let step1 : List TEff × Option String :=
    if 0 < st.traffic.length then
      match fs.mkdir opts.trafficDir with
      | Except.error e => ([], some e)
      | Except.ok _ =>
        match fs.writeFile (opts.trafficDir ++ "/integration-tests-traffic.json")
            (serialize st.traffic) with
        | Except.error e => ([TEff.mkdirEff opts.trafficDir], some e)
        | Except.ok _ =>
          ([TEff.mkdirEff opts.trafficDir,
            TEff.writeEff (opts.trafficDir ++ "/integration-tests-traffic.json")
              (serialize st.traffic)], none)
    else ([], none)
  match step1 with
  | (effs, some e) => (effs, some e)
  | (effs, none) =>
    match generateAuditReport fs parseSchema parseTraffic opts now with
    | Except.error e => (effs, some e)
    | Except.ok report =>
      match fs.mkdir (getDir opts.reportPath) with
      | Except.error e => (effs, some e)
      | Except.ok _ =>
        match fs.writeFile opts.reportPath report with
        | Except.error e => (effs ++ [TEff.mkdirEff (getDir opts.reportPath)], some e)
        | Except.ok _ =>
          (effs ++ [TEff.mkdirEff (getDir opts.reportPath),
            TEff.writeEff opts.reportPath report], none)

/-- teardown (source lines 101-136): run the try body, turn any caught
error into the console.error line of the catch block, and always end with
the completion log; no error ever escapes teardown. -/
def teardown (fs : FileOps) (parseSchema : String → Except String Schema)
    (parseTraffic : String → Except String (List TrafficRecord))
    (serialize : List TrafficRecord → String) (opts : AuditorOptions) (now : String)
    (st : AuditorState) : List TEff :=
  match teardownTry fs parseSchema parseTraffic serialize opts now st with
  | (effs, some e) =>
    effs ++ [TEff.logErrEff ("❌ Failed to generate audit report: " ++ e),
      TEff.logEff "🏁 Global teardown completed"]
  | (effs, none) => effs ++ [TEff.logEff "🏁 Global teardown completed"]

/-- Report writes contained in a teardown effect list. -/
def reportWritesOf (effs : List TEff) : List (String × String) :=
  effs.filterMap fun e =>
    match e with
    | TEff.writeEff p c => some (p, c)
    | _ => none

/-- Anchored character-list comparison used by the substring test. -/
def startsWithChars : List Char → List Char → Bool
  | [], _ => true
  | _ :: _, [] => false
  | a :: as, b :: bs => decide (a = b) && startsWithChars as bs

/-- Substring test on character lists. -/
def hasSubChars (pat : List Char) : List Char → Bool
  | [] => pat.isEmpty
  | c :: rest => startsWithChars pat (c :: rest) || hasSubChars pat rest

/-- Substring test on strings: strHas s pat holds when pat occurs
contiguously inside s. -/
def strHas (s pat : String) : Bool :=
  hasSubChars pat.data s.data

/-- Anchor test on strings: strStarts s pat holds when s begins with
pat. -/
def strStarts (s pat : String) : Bool :=
  startsWithChars pat.data s.data

/-- Written from the specification: a placeholder segment is a whole path
segment of the shape opening brace, parameter name, closing brace. -/
def isPlaceholderSeg (s : List Char) : Bool :=
  match s with
  | '\x7b' :: rest =>
    decide (2 ≤ rest.length) && decide (rest.getLast? = some '\x7d') &&
      rest.dropLast.all (fun c => decide (c ≠ '\x7d'))
  | _ => false

/-- Written from the specification: a placeholder segment matches any
single non-empty concrete segment, every other template segment matches
only the equal concrete segment. -/
def specSegMatches (tseg cseg : List Char) : Bool :=
  if isPlaceholderSeg tseg then decide (cseg ≠ []) else decide (tseg = cseg)

/-- Written from the specification: a template matches a concrete path
when their slash-split segment counts are equal and segments match
pointwise. -/
def specTemplateMatches (tmpl cpath : List Char) : Bool :=
  let ts := splitChar '/' tmpl
  let cs := splitChar '/' cpath
  decide (ts.length = cs.length) && (ts.zip cs).all (fun p => specSegMatches p.1 p.2)

/-- Written from the specification, for comparison with
normalizePathForSchema: strip the query, return the cleaned path itself
when it is a specification key, otherwise the first declared template that
structurally matches, in declared order. -/
def specMatch {α : Type} (url : String) (schemaPaths : List (String × α)) : Option String :=
  let cleanUrl := stripQuery url
  if schemaPaths.any (fun kv => decide (kv.1 = cleanUrl)) then some cleanUrl
  else (schemaPaths.map Prod.fst).find? (fun p => specTemplateMatches p.data cleanUrl.data)

/-- Characters that carry no meaning inside the regular expression built by
the source (and are not braces): template safety excludes the JS regex
metacharacters. -/
def safeChar (c : Char) : Bool :=
  decide (c ≠ '.') && decide (c ≠ '*') && decide (c ≠ '+') && decide (c ≠ '?') &&
    decide (c ≠ '(') && decide (c ≠ ')') && decide (c ≠ '[') && decide (c ≠ ']') &&
    decide (c ≠ '\x7b') && decide (c ≠ '\x7d') && decide (c ≠ '\\') &&
    decide (c ≠ '^') && decide (c ≠ '$') && decide (c ≠ '|')

/-- Safe template segment: either a whole placeholder or a literal segment
free of regex metacharacters and braces. -/
def safeSeg (s : List Char) : Bool :=
  isPlaceholderSeg s || s.all safeChar

/-- Safe template: every slash-split segment is safe.  OpenAPI templates
(slash-separated literal names and whole-segment placeholders) are all
safe. -/
def safeTemplate (t : String) : Bool :=
  (splitChar '/' t.data).all safeSeg

/-- Token image of one safe segment: a placeholder collapses to the ph
atom, a literal segment to its characters. -/
def segTokens (s : List Char) : List PTok :=
  if isPlaceholderSeg s then [PTok.ph] else s.map PTok.lit

/-- Token image of a segment list joined by literal slashes. -/
def tokensOfSegs : List (List Char) → List PTok
  | [] => []
  | [s] => segTokens s
  | s :: rest => segTokens s ++ PTok.lit '/' :: tokensOfSegs rest

/-- Decomposition of a character list at its first slash: the prefix
before it and the remainder after it, or none when no slash occurs. -/
def afterSlash (c : List Char) : Option (List Char × List Char) :=
  match c with
  | [] => none
  | d :: rest =>
    if d = '/' then some ([], rest)
    else
      match afterSlash rest with
      | some (pre, post) => some (d :: pre, post)
      | none => none

/-- Undocumented key of a traffic record as the specification words it,
except that the url is kept raw: upper-cased method, space, url. -/
def undocKey (r : TrafficRecord) : String :=
  strUpper r.method ++ " " ++ r.url

/-- Record matching no declared template. -/
def isUnmatched (paths : List (String × PathItem)) (r : TrafficRecord) : Bool :=
  (normalizePathForSchema r.url paths).isNone

/-- First-occurrence deduplication, the set an insertion-ordered JS Set
reaches after adding every element of the list in order. -/
def leftDedup {α : Type} [DecidableEq α] (l : List α) : List α :=
  l.foldl insertSet []

/-- Written from the specification (with the raw url in the key): the
undocumented mapping groups the unmatched records by key in order of first
occurrence, each key carrying its observed statuses, deduplicated in order
of first observation. -/
def specUndoc (paths : List (String × PathItem)) (traffic : List TrafficRecord) :
    List (String × List Nat) :=
  let us := traffic.filter (isUnmatched paths)
  (leftDedup (us.map undocKey)).map (fun k =>
    (k, leftDedup ((us.filter (fun r => decide (undocKey r = k))).map (fun r => r.status))))

theorem stringAppendCancel (p s a b : String) (h : p ++ a ++ s = p ++ b ++ s) : a = b := by
  apply String.ext
  have hd : (p ++ a ++ s).data = (p ++ b ++ s).data := by rw [h]
  simp only [String.data_append, List.append_assoc] at hd
  have h2 := List.append_cancel_left hd
  exact List.append_cancel_right h2

/-- Snapshot paths built from distinct suite names are distinct. -/
theorem snapshotPathNe (dir a b : String) (h : a ≠ b) :
    dir ++ "/" ++ a ++ ".json" ≠ dir ++ "/" ++ b ++ ".json" := by
  intro hc
  apply h
  have : (dir ++ "/") ++ a ++ ".json" = (dir ++ "/") ++ b ++ ".json" := by
    simpa [String.append_assoc] using hc
  exact stringAppendCancel (dir ++ "/") ".json" a b this

theorem storeReadAppendAt (l : List (List TrafficRecord)) (x : List TrafficRecord) :
    storeRead (l ++ [x]) l.length = x := by
  induction l with
  | nil => rfl
  | cons a as ih => simp only [List.cons_append, List.length_cons] ; exact ih

theorem storeReadAppendLt (l : List (List TrafficRecord)) (x : List TrafficRecord)
    (i : Nat) (h : i < l.length) : storeRead (l ++ [x]) i = storeRead l i := by
  induction l generalizing i with
  | nil => exact absurd h (by simp)
  | cons a as ih =>
    cases i with
    | zero => rfl
    | succ j =>
      have : j < as.length := by simpa using h
      simpa [storeRead, List.getD] using ih j this

theorem storeReadWriteNe (l : List (List TrafficRecord)) (i j : Nat)
    (v : List TrafficRecord) (h : i ≠ j) : storeRead (storeWrite l j v) i = storeRead l i := by
  induction l generalizing i j with
  | nil => simp [storeRead, storeWrite]
  | cons a as ih =>
    cases j with
    | zero =>
      cases i with
      | zero => exact absurd rfl h
      | succ k => simp [storeRead, storeWrite]
    | succ j' =>
      cases i with
      | zero => simp [storeRead, storeWrite, List.getD]
      | succ k =>
        have : k ≠ j' := fun hc => h (by rw [hc])
        simpa [storeRead, storeWrite, List.getD] using ih k j' this

theorem lookupSetAssocSelf (l : List (Nat × Draft)) (k : Nat) (v : Draft) :
    lookupAssoc (setAssoc l k v) k = some v := by
  induction l with
  | nil => simp [setAssoc, lookupAssoc]
  | cons p rest ih =>
    by_cases h : p.1 = k
    · simp [setAssoc, lookupAssoc, h]
    · simp [setAssoc, lookupAssoc, h, ih]

theorem lookupSetAssocNe (l : List (Nat × Draft)) (k k' : Nat) (v : Draft) (h : k' ≠ k) :
    lookupAssoc (setAssoc l k v) k' = lookupAssoc l k' := by
  have hk : ¬ (k = k') := fun hc => h hc.symm
  induction l with
  | nil => simp [setAssoc, lookupAssoc, hk]
  | cons p rest ih =>
    by_cases hp : p.1 = k
    · simp [setAssoc, lookupAssoc, hp, hk]
    · simp [setAssoc, lookupAssoc, hp, ih]

theorem lookupSetAssocSome (l : List (Nat × Draft)) (k r : Nat) (v : Draft)
    (h : (lookupAssoc l r).isSome) : (lookupAssoc (setAssoc l k v) r).isSome := by
  by_cases hr : r = k
  · subst hr ; simp [lookupSetAssocSelf]
  · rwa [lookupSetAssocNe l k r v hr]

theorem runTraceLength (evs : List FEvent) : ∀ (st : RecorderState) (seen : List Nat),
    (∀ rid ∈ seen, (lookupAssoc st.drafts rid).isSome) →
    sendsCovered seen evs = true →
    (runTrace st evs).traffic.length = st.traffic.length + countSends evs := by
  induction evs with
  | nil => intro st seen _ _ ; simp [runTrace, countSends]
  | cons e rest ih =>
    intro st seen hinv hcov
    cases e with
    | onRequest rid m u =>
      have hcov' : sendsCovered (rid :: seen) rest = true := by
        simpa [sendsCovered] using hcov
      have hinv' : ∀ r ∈ rid :: seen,
          (lookupAssoc (recStep st (FEvent.onRequest rid m u)).drafts r).isSome := by
        intro r hr
        rcases List.mem_cons.mp hr with h | h
        · subst h ; simp [recStep, lookupSetAssocSelf]
        · exact lookupSetAssocSome _ _ _ _ (hinv r h)
      have := ih (recStep st (FEvent.onRequest rid m u)) (rid :: seen) hinv' hcov'
      simpa [runTrace, recStep, countSends] using this
    | preHandler rid b =>
      have hcov' : sendsCovered seen rest = true := by
        simpa [sendsCovered] using hcov
      have hinv' : ∀ r ∈ seen,
          (lookupAssoc (recStep st (FEvent.preHandler rid b)).drafts r).isSome := by
        intro r hr
        simp only [recStep]
        cases hl : lookupAssoc st.drafts rid with
        | none => simpa using hinv r hr
        | some d => simpa using lookupSetAssocSome _ _ _ _ (hinv r hr)
      have := ih (recStep st (FEvent.preHandler rid b)) seen hinv' hcov'
      have htr : (recStep st (FEvent.preHandler rid b)).traffic = st.traffic := by
        simp only [recStep]
        cases lookupAssoc st.drafts rid <;> simp
      simp only [runTrace, List.foldl_cons] at this ⊢
      rw [this, htr]
      simp [countSends]
    | onSend rid s p =>
      have hmem : rid ∈ seen ∧ sendsCovered seen rest = true := by
        simpa [sendsCovered, Bool.and_eq_true] using hcov
      have hsome : (lookupAssoc st.drafts rid).isSome :=
        hinv rid hmem.1
      rcases Option.isSome_iff_exists.mp hsome with ⟨d, hd⟩
      have hinv' : ∀ r ∈ seen,
          (lookupAssoc (recStep st (FEvent.onSend rid s p)).drafts r).isSome := by
        intro r hr
        simp only [recStep, hd]
        exact hinv r hr
      have := ih (recStep st (FEvent.onSend rid s p)) seen hinv' hmem.2
      simp only [runTrace, List.foldl_cons] at this ⊢
      rw [this]
      simp [recStep, hd, countSends, Nat.add_comm, Nat.add_assoc, Nat.add_left_comm]

/-- C7 (corrected): the recorder appends a record only at response-write
(onSend) time, with the finalized status and payload, and appends exactly
one record per onSend invocation of an initialized exchange; over any trace
in which every onSend is preceded by the onRequest of its exchange, the log
length equals the number of onSend invocations (so one send yields one
record, but repeated sends for the same exchange each append). -/
theorem c7_one_record_per_send :
    (∀ evs, sendsCovered [] evs = true →
      (runTrace ⟨[], []⟩ evs).traffic.length = countSends evs) ∧
    (∀ st rid m u, (recStep st (FEvent.onRequest rid m u)).traffic = st.traffic) ∧
    (∀ st rid b, (recStep st (FEvent.preHandler rid b)).traffic = st.traffic) := by
  refine ⟨?_, ?_, ?_⟩
  · intro evs hcov
    have := runTraceLength evs ⟨[], []⟩ [] (by intro r hr; cases hr) hcov
    simpa using this
  · intro st rid m u ; rfl
  · intro st rid b
    simp only [recStep]
    cases lookupAssoc st.drafts rid <;> simp

/-- C7 witness: a well-formed single-exchange trace with one onSend yields
exactly one record. -/
theorem c7_one_record_per_send_witness :
    sendsCovered []
      [FEvent.onRequest 0 "GET" "/items", FEvent.preHandler 0 none,
       FEvent.onSend 0 200 none] = true ∧
    (runTrace ⟨[], []⟩
      [FEvent.onRequest 0 "GET" "/items", FEvent.preHandler 0 none,
       FEvent.onSend 0 200 none]).traffic.length =
      countSends
        [FEvent.onRequest 0 "GET" "/items", FEvent.preHandler 0 none,
         FEvent.onSend 0 200 none] ∧
    countSends
      [FEvent.onRequest 0 "GET" "/items", FEvent.preHandler 0 none,
       FEvent.onSend 0 200 none] = 1 :=
  ⟨by decide,
   c7_one_record_per_send.1
     [FEvent.onRequest 0 "GET" "/items", FEvent.preHandler 0 none,
      FEvent.onSend 0 200 none] (by decide),
   by decide⟩

/-- C7 counterexample: when the service issues two response-write (onSend)
operations for the same exchange, the hook pushes twice, so the log holds
two records for one exchange, contradicting the claimed at-most-once
invariant. -/
theorem c7_counterexample :
    (runTrace ⟨[], []⟩
      [FEvent.onRequest 0 "GET" "/items", FEvent.onSend 0 200 none,
       FEvent.onSend 0 200 none]).traffic =
      [⟨"GET", "/items", 200, none, none⟩, ⟨"GET", "/items", 200, none, none⟩] := by
  decide

/-- C4 (confirmed): with records r1 appended before the first call and r2
appended before the second, writeTraffic nameA then writeTraffic nameB
writes exactly one snapshot per call, named after the suite, containing
exactly the records appended since the previous call, clears the log after
each call, and the two snapshot paths are distinct. -/
theorem c4_writeTraffic_two_suites (opts : AuditorOptions) (r1 r2 : List TrafficRecord)
    (nameA nameB : String) (h1 : r1 ≠ []) (h2 : r2 ≠ []) (hn : nameA ≠ nameB) :
    writesOf (writeTraffic opts (appendRecords ⟨[]⟩ r1) nameA).2 =
      [(opts.trafficDir ++ "/" ++ nameA ++ ".json", r1)] ∧
    (writeTraffic opts (appendRecords ⟨[]⟩ r1) nameA).1.traffic = [] ∧
    writesOf (writeTraffic opts
        (appendRecords (writeTraffic opts (appendRecords ⟨[]⟩ r1) nameA).1 r2) nameB).2 =
      [(opts.trafficDir ++ "/" ++ nameB ++ ".json", r2)] ∧
    (writeTraffic opts
        (appendRecords (writeTraffic opts (appendRecords ⟨[]⟩ r1) nameA).1 r2) nameB).1.traffic = [] ∧
    opts.trafficDir ++ "/" ++ nameA ++ ".json" ≠ opts.trafficDir ++ "/" ++ nameB ++ ".json" := by
  have l1 : ¬ (r1.length = 0) := by simpa using h1
  have l2 : ¬ (r2.length = 0) := by simpa using h2
  refine ⟨?_, ?_, ?_, ?_, snapshotPathNe opts.trafficDir nameA nameB hn⟩ <;>
    simp [writeTraffic, appendRecords, writesOf, l1, l2]

/-- C4 witness at concrete suites suiteA and suiteB with one record each. -/
theorem c4_writeTraffic_two_suites_witness :
    ([⟨"GET", "/a", 200, none, none⟩] : List TrafficRecord) ≠ [] ∧
    ([⟨"GET", "/b", 201, none, none⟩] : List TrafficRecord) ≠ [] ∧
    ("suiteA" : String) ≠ "suiteB" ∧
    (writesOf (writeTraffic ⟨"s.json", "t", "r.md"⟩
        (appendRecords ⟨[]⟩ [⟨"GET", "/a", 200, none, none⟩]) "suiteA").2 =
      [("t" ++ "/" ++ "suiteA" ++ ".json", [⟨"GET", "/a", 200, none, none⟩])] ∧
    (writeTraffic ⟨"s.json", "t", "r.md"⟩
        (appendRecords ⟨[]⟩ [⟨"GET", "/a", 200, none, none⟩]) "suiteA").1.traffic = [] ∧
    writesOf (writeTraffic ⟨"s.json", "t", "r.md"⟩
        (appendRecords (writeTraffic ⟨"s.json", "t", "r.md"⟩
          (appendRecords ⟨[]⟩ [⟨"GET", "/a", 200, none, none⟩]) "suiteA").1
          [⟨"GET", "/b", 201, none, none⟩]) "suiteB").2 =
      [("t" ++ "/" ++ "suiteB" ++ ".json", [⟨"GET", "/b", 201, none, none⟩])] ∧
    (writeTraffic ⟨"s.json", "t", "r.md"⟩
        (appendRecords (writeTraffic ⟨"s.json", "t", "r.md"⟩
          (appendRecords ⟨[]⟩ [⟨"GET", "/a", 200, none, none⟩]) "suiteA").1
          [⟨"GET", "/b", 201, none, none⟩]) "suiteB").1.traffic = [] ∧
    "t" ++ "/" ++ "suiteA" ++ ".json" ≠ "t" ++ "/" ++ "suiteB" ++ ".json") :=
  ⟨by decide, by decide, by decide,
   c4_writeTraffic_two_suites ⟨"s.json", "t", "r.md"⟩
     [⟨"GET", "/a", 200, none, none⟩] [⟨"GET", "/b", 201, none, none⟩]
     "suiteA" "suiteB" (by decide) (by decide) (by decide)⟩

/-- C9 (confirmed): getTraffic returns a fresh array (a new address), whose
contents equal the internal log, and overwriting the returned array with
any list leaves the log stored at the auditor address unchanged. -/
theorem c9_getTraffic_fresh_copy (store : Store) (a : Nat) (v : List TrafficRecord)
    (h : a < store.length) :
    (getTraffic store a).2 ≠ a ∧
    storeRead (getTraffic store a).1 (getTraffic store a).2 = storeRead store a ∧
    storeRead (storeWrite (getTraffic store a).1 (getTraffic store a).2 v) a =
      storeRead store a := by
  refine ⟨Nat.ne_of_gt h, ?_, ?_⟩
  · exact storeReadAppendAt store (store.getD a [])
  · have hne : a ≠ store.length := Nat.ne_of_lt h
    calc storeRead (storeWrite (store ++ [store.getD a []]) store.length v) a
        = storeRead (store ++ [store.getD a []]) a :=
          storeReadWriteNe (store ++ [store.getD a []]) a store.length v hne
      _ = storeRead store a := storeReadAppendLt store (store.getD a []) a h

/-- C9 witness: a one-element store holding the auditor log at address 0. -/
theorem c9_getTraffic_fresh_copy_witness :
    0 < ([[⟨"GET", "/a", 200, none, none⟩]] : Store).length ∧
    ((getTraffic [[⟨"GET", "/a", 200, none, none⟩]] 0).2 ≠ 0 ∧
    storeRead (getTraffic [[⟨"GET", "/a", 200, none, none⟩]] 0).1
        (getTraffic [[⟨"GET", "/a", 200, none, none⟩]] 0).2 =
      storeRead [[⟨"GET", "/a", 200, none, none⟩]] 0 ∧
    storeRead (storeWrite (getTraffic [[⟨"GET", "/a", 200, none, none⟩]] 0).1
        (getTraffic [[⟨"GET", "/a", 200, none, none⟩]] 0).2 []) 0 =
      storeRead [[⟨"GET", "/a", 200, none, none⟩]] 0) :=
  ⟨by decide, c9_getTraffic_fresh_copy [[⟨"GET", "/a", 200, none, none⟩]] 0 [] (by decide)⟩

/-- C10 (confirmed): writeTraffic on an empty log only logs a message: the
state is returned unchanged and no mkdir and no file write is performed. -/
theorem c10_writeTraffic_empty_noop (opts : AuditorOptions) (st : AuditorState)
    (name : String) (h : st.traffic = []) :
    writeTraffic opts st name = (st, [WEff.logEff ("No traffic to write for " ++ name)]) ∧
    writesOf (writeTraffic opts st name).2 = [] ∧
    mkdirsOf (writeTraffic opts st name).2 = [] := by
  refine ⟨?_, ?_, ?_⟩ <;> simp [writeTraffic, h, writesOf, mkdirsOf]

/-- C10 witness at a concrete empty state. -/
theorem c10_writeTraffic_empty_noop_witness :
    (⟨[]⟩ : AuditorState).traffic = [] ∧
    (writeTraffic ⟨"s.json", "t", "r.md"⟩ ⟨[]⟩ "suiteA" =
      (⟨[]⟩, [WEff.logEff ("No traffic to write for " ++ "suiteA")]) ∧
    writesOf (writeTraffic ⟨"s.json", "t", "r.md"⟩ ⟨[]⟩ "suiteA").2 = [] ∧
    mkdirsOf (writeTraffic ⟨"s.json", "t", "r.md"⟩ ⟨[]⟩ "suiteA").2 = []) :=
  ⟨rfl, c10_writeTraffic_empty_noop ⟨"s.json", "t", "r.md"⟩ ⟨[]⟩ "suiteA" rfl⟩

theorem hasSubCharsAppend (pat b : List Char) (h : hasSubChars pat b = true) :
    ∀ a : List Char, hasSubChars pat (a ++ b) = true := by
  intro a
  induction a with
  | nil => simpa using h
  | cons c cs ih => simp [hasSubChars, ih]

/-- C8 (confirmed): when the schema loads and every traffic snapshot loads
to an overall empty record list, report generation succeeds with the
placeholder document, which explicitly states that no traffic data was
found. -/
theorem c8_zero_traffic_placeholder (fs : FileOps) (ps : String → Except String Schema)
    (pt : String → Except String (List TrafficRecord)) (opts : AuditorOptions) (now : String)
    (sc : String) (schema : Schema) (files : List String)
    (h1 : fs.readFile opts.schemaPath = Except.ok sc)
    (h2 : ps sc = Except.ok schema)
    (h3 : fs.glob (opts.trafficDir ++ "/*.json") = Except.ok files)
    (h4 : loadTrafficFiles fs pt files = Except.ok []) :
    generateAuditReport fs ps pt opts now = Except.ok (generateEmptyReport now) ∧
    strHas (generateEmptyReport now) "No traffic data found" = true := by
  constructor
  · simp [generateAuditReport, h1, h2, h3, h4, bind, Except.bind]
  · unfold strHas generateEmptyReport
    rw [String.data_append, String.data_append]
    exact hasSubCharsAppend _ _ (by decide) _

/-- C8 witness with a concrete file-system stub holding no snapshots. -/
theorem c8_zero_traffic_placeholder_witness :
    (FileOps.mk (fun _ => Except.ok "SC") (fun _ _ => Except.ok ()) (fun _ => Except.ok ())
        (fun _ => Except.ok [])).readFile "s.json" = Except.ok "SC" ∧
    loadTrafficFiles
      (FileOps.mk (fun _ => Except.ok "SC") (fun _ _ => Except.ok ()) (fun _ => Except.ok ())
        (fun _ => Except.ok []))
      (fun _ => Except.ok []) [] = Except.ok [] ∧
    (generateAuditReport
        (FileOps.mk (fun _ => Except.ok "SC") (fun _ _ => Except.ok ()) (fun _ => Except.ok ())
          (fun _ => Except.ok []))
        (fun _ => Except.ok ⟨[]⟩) (fun _ => Except.ok []) ⟨"s.json", "t", "gen/r.md"⟩ "T" =
      Except.ok (generateEmptyReport "T") ∧
    strHas (generateEmptyReport "T") "No traffic data found" = true) :=
  ⟨rfl, rfl,
   c8_zero_traffic_placeholder
     (FileOps.mk (fun _ => Except.ok "SC") (fun _ _ => Except.ok ()) (fun _ => Except.ok ())
       (fun _ => Except.ok []))
     (fun _ => Except.ok ⟨[]⟩) (fun _ => Except.ok []) ⟨"s.json", "t", "gen/r.md"⟩ "T"
     "SC" ⟨[]⟩ [] rfl rfl rfl rfl⟩

/-- C5 (confirmed): a missing specification file makes generateAuditReport
itself fail with that error (no report value is produced), and the error is
then caught at the teardown boundary, logged, and teardown still runs to
completion; likewise a failing report write inside teardown is caught,
logged, and leaves no report write among the performed effects. -/
theorem c5_spec_load_fatal_teardown_catches :
    (∀ (fs : FileOps) (ps : String → Except String Schema)
        (pt : String → Except String (List TrafficRecord))
        (serialize : List TrafficRecord → String) (opts : AuditorOptions) (now : String)
        (st : AuditorState) (e : String),
      fs.readFile opts.schemaPath = Except.error e → st.traffic = [] →
      generateAuditReport fs ps pt opts now = Except.error e ∧
      teardown fs ps pt serialize opts now st =
        [TEff.logErrEff ("❌ Failed to generate audit report: " ++ e),
         TEff.logEff "🏁 Global teardown completed"]) ∧
    (∀ (fs : FileOps) (ps : String → Except String Schema)
        (pt : String → Except String (List TrafficRecord))
        (serialize : List TrafficRecord → String) (opts : AuditorOptions) (now : String)
        (st : AuditorState) (sc : String) (schema : Schema) (e : String),
      st.traffic = [] →
      fs.readFile opts.schemaPath = Except.ok sc →
      ps sc = Except.ok schema →
      fs.glob (opts.trafficDir ++ "/*.json") = Except.ok [] →
      fs.mkdir (getDir opts.reportPath) = Except.ok () →
      fs.writeFile opts.reportPath (generateEmptyReport now) = Except.error e →
      teardown fs ps pt serialize opts now st =
        [TEff.mkdirEff (getDir opts.reportPath),
         TEff.logErrEff ("❌ Failed to generate audit report: " ++ e),
         TEff.logEff "🏁 Global teardown completed"] ∧
      reportWritesOf (teardown fs ps pt serialize opts now st) = []) := by
  constructor
  · intro fs ps pt serialize opts now st e h1 h2
    have hg : generateAuditReport fs ps pt opts now = Except.error e := by
      simp [generateAuditReport, h1, bind, Except.bind]
    refine ⟨hg, ?_⟩
    simp [teardown, teardownTry, h2, hg]
  · intro fs ps pt serialize opts now st sc schema e h0 h1 h2 h3 h4 h5
    have hg : generateAuditReport fs ps pt opts now = Except.ok (generateEmptyReport now) := by
      simp [generateAuditReport, h1, h2, h3, bind, Except.bind, loadTrafficFiles]
    have ht : teardown fs ps pt serialize opts now st =
        [TEff.mkdirEff (getDir opts.reportPath),
         TEff.logErrEff ("❌ Failed to generate audit report: " ++ e),
         TEff.logEff "🏁 Global teardown completed"] := by
      simp [teardown, teardownTry, h0, hg, h4, h5]
    refine ⟨ht, ?_⟩
    rw [ht]
    rfl

/-- C5 witness: a stub file system whose schema read fails, and one whose
report write fails. -/
theorem c5_spec_load_fatal_teardown_catches_witness :
    (FileOps.mk (fun _ => Except.error "ENOENT") (fun _ _ => Except.ok ())
        (fun _ => Except.ok ()) (fun _ => Except.ok [])).readFile "s.json" =
      Except.error "ENOENT" ∧
    (generateAuditReport
        (FileOps.mk (fun _ => Except.error "ENOENT") (fun _ _ => Except.ok ())
          (fun _ => Except.ok ()) (fun _ => Except.ok []))
        (fun _ => Except.ok ⟨[]⟩) (fun _ => Except.ok []) ⟨"s.json", "t", "gen/r.md"⟩ "T" =
      Except.error "ENOENT" ∧
    teardown
        (FileOps.mk (fun _ => Except.error "ENOENT") (fun _ _ => Except.ok ())
          (fun _ => Except.ok ()) (fun _ => Except.ok []))
        (fun _ => Except.ok ⟨[]⟩) (fun _ => Except.ok []) (fun _ => "") ⟨"s.json", "t", "gen/r.md"⟩
        "T" ⟨[]⟩ =
      [TEff.logErrEff ("❌ Failed to generate audit report: " ++ "ENOENT"),
       TEff.logEff "🏁 Global teardown completed"]) ∧
    (FileOps.mk (fun _ => Except.ok "SC") (fun _ _ => Except.error "EACCES")
        (fun _ => Except.ok ()) (fun _ => Except.ok [])).writeFile "gen/r.md"
        (generateEmptyReport "T") = Except.error "EACCES" ∧
    (teardown
        (FileOps.mk (fun _ => Except.ok "SC") (fun _ _ => Except.error "EACCES")
          (fun _ => Except.ok ()) (fun _ => Except.ok []))
        (fun _ => Except.ok ⟨[]⟩) (fun _ => Except.ok []) (fun _ => "") ⟨"s.json", "t", "gen/r.md"⟩
        "T" ⟨[]⟩ =
      [TEff.mkdirEff (getDir "gen/r.md"),
       TEff.logErrEff ("❌ Failed to generate audit report: " ++ "EACCES"),
       TEff.logEff "🏁 Global teardown completed"] ∧
    reportWritesOf
      (teardown
        (FileOps.mk (fun _ => Except.ok "SC") (fun _ _ => Except.error "EACCES")
          (fun _ => Except.ok ()) (fun _ => Except.ok []))
        (fun _ => Except.ok ⟨[]⟩) (fun _ => Except.ok []) (fun _ => "") ⟨"s.json", "t", "gen/r.md"⟩
        "T" ⟨[]⟩) = []) :=
  ⟨rfl,
   c5_spec_load_fatal_teardown_catches.1
     (FileOps.mk (fun _ => Except.error "ENOENT") (fun _ _ => Except.ok ())
       (fun _ => Except.ok ()) (fun _ => Except.ok []))
     (fun _ => Except.ok ⟨[]⟩) (fun _ => Except.ok []) (fun _ => "") ⟨"s.json", "t", "gen/r.md"⟩
     "T" ⟨[]⟩ "ENOENT" rfl rfl,
   rfl,
   c5_spec_load_fatal_teardown_catches.2
     (FileOps.mk (fun _ => Except.ok "SC") (fun _ _ => Except.error "EACCES")
       (fun _ => Except.ok ()) (fun _ => Except.ok []))
     (fun _ => Except.ok ⟨[]⟩) (fun _ => Except.ok []) (fun _ => "") ⟨"s.json", "t", "gen/r.md"⟩
     "T" ⟨[]⟩ "SC" ⟨[]⟩ "EACCES" rfl rfl rfl rfl rfl rfl⟩

/-- C1 (code_bug): on the empty specification with one traffic record (a
zero denominator for both the path and the combo percentage), the rendered
report interpolates the JS division result NaN, so the percentage fields
read 0/0 (NaN%) instead of a not-applicable marker. -/
theorem c1_zero_denominator_renders_nan :
    pctString 0 0 = "NaN" ∧
    strHas (generateReport ⟨[]⟩ [⟨"GET", "/x", 200, none, none⟩] "T")
      "- **Paths Tested:** 0/0 (NaN%)" = true ∧
    strHas (generateReport ⟨[]⟩ [⟨"GET", "/x", 200, none, none⟩] "T")
      "- **Method/Status Combinations Tested:** 0/0 (NaN%)" = true :=
  ⟨by decide, by decide, by decide⟩

theorem mem_insertSet {α : Type} [DecidableEq α] (s : List α) (x y : α) :
    x ∈ insertSet s y ↔ x ∈ s ∨ x = y := by
  by_cases h : y ∈ s
  · simp only [insertSet, if_pos h]
    constructor
    · exact fun hx => Or.inl hx
    · rintro (hx | rfl) <;> assumption
  · simp [insertSet, if_neg h]

theorem nodup_insertSet {α : Type} [DecidableEq α] (s : List α) (x : α) (h : s.Nodup) :
    (insertSet s x).Nodup := by
  by_cases hx : x ∈ s
  · simpa [insertSet, hx] using h
  · simp only [insertSet, if_neg hx]
    simpa [List.nodup_append] using ⟨h, hx⟩

theorem mem_foldl_insertSet {α : Type} [DecidableEq α] (l : List α) :
    ∀ (acc : List α) (x : α), x ∈ l.foldl insertSet acc ↔ x ∈ acc ∨ x ∈ l := by
  induction l with
  | nil => intro acc x ; simp
  | cons a as ih =>
    intro acc x
    simp only [List.foldl_cons, ih, mem_insertSet, List.mem_cons]
    tauto

theorem mem_leftDedup {α : Type} [DecidableEq α] (l : List α) (x : α) :
    x ∈ leftDedup l ↔ x ∈ l := by
  simp [leftDedup, mem_foldl_insertSet]

theorem nodup_foldl_insertSet {α : Type} [DecidableEq α] (l : List α) :
    ∀ acc : List α, acc.Nodup → (l.foldl insertSet acc).Nodup := by
  induction l with
  | nil => intro acc h ; simpa using h
  | cons a as ih => intro acc h ; exact ih _ (nodup_insertSet acc a h)

theorem nodup_leftDedup {α : Type} [DecidableEq α] (l : List α) : (leftDedup l).Nodup :=
  nodup_foldl_insertSet l [] List.nodup_nil

theorem leftDedup_concat {α : Type} [DecidableEq α] (l : List α) (x : α) :
    leftDedup (l ++ [x]) = insertSet (leftDedup l) x := by
  simp [leftDedup, List.foldl_append]

theorem addStatus_map_not_mem (ks : List String) (g : String → List Nat) (k : String)
    (v : Nat) (h : k ∉ ks) :
    addStatus (ks.map fun x => (x, g x)) k v = (ks.map fun x => (x, g x)) ++ [(k, [v])] := by
  induction ks with
  | nil => rfl
  | cons a as ih =>
    have ha : a ≠ k := fun hc => h (hc ▸ List.mem_cons_self a as)
    have has : k ∉ as := fun hc => h (List.mem_cons_of_mem a hc)
    simp [addStatus, ha, ih has]

theorem addStatus_map_mem (ks : List String) (g : String → List Nat) (k : String)
    (v : Nat) (h : k ∈ ks) (hnd : ks.Nodup) :
    addStatus (ks.map fun x => (x, g x)) k v =
      ks.map fun x => (x, if x = k then insertSet (g x) v else g x) := by
  induction ks with
  | nil => cases h
  | cons a as ih =>
    rcases List.nodup_cons.mp hnd with ⟨hna, hnd'⟩
    by_cases ha : a = k
    · subst ha
      have hmap : List.map (fun x => (x, if x = a then insertSet (g x) v else g x)) as
          = List.map (fun x => (x, g x)) as := by
        apply List.map_congr_left
        intro x hx
        have hxa : x ≠ a := fun hc => hna (hc ▸ hx)
        simp [hxa]
      simp [addStatus, hmap]
    · have hk : k ∈ as := by
        rcases List.mem_cons.mp h with hc | hc
        · exact absurd hc.symm ha
        · exact hc
      simp [addStatus, ha, ih hk hnd']

theorem filter_key_eq_nil (us : List TrafficRecord) (k : String)
    (h : k ∉ us.map undocKey) :
    us.filter (fun r => decide (undocKey r = k)) = [] := by
  induction us with
  | nil => rfl
  | cons r rs ih =>
    have h1 : ¬ (undocKey r = k) := by
      intro hc
      exact h (by rw [List.map_cons, ← hc] ; exact List.mem_cons_self _ _)
    have h2 : k ∉ rs.map undocKey := by
      intro hc
      exact h (by rw [List.map_cons] ; exact List.mem_cons_of_mem _ hc)
    simp [List.filter_cons, h1, ih h2]

theorem specUndoc_def (paths : List (String × PathItem)) (traffic : List TrafficRecord) :
    specUndoc paths traffic =
      (leftDedup ((traffic.filter (isUnmatched paths)).map undocKey)).map (fun k =>
        (k, leftDedup (((traffic.filter (isUnmatched paths)).filter
          (fun r => decide (undocKey r = k))).map (fun r => r.status)))) := rfl

/-- C2 (corrected): the undocumented mapping of the coverage computation is
exactly the unmatched traffic grouped by the key upper-cased method, space,
raw url (query not stripped), keys in order of first occurrence, each key
accumulating its observed status codes deduplicated in observation
order. -/
theorem c2_undocumented_raw_url_grouping (paths : List (String × PathItem))
    (traffic : List TrafficRecord) :
    (analyzeTraffic paths traffic).undocumented = specUndoc paths traffic := by
  induction traffic using List.reverseRecOn with
  | nil => rfl
  | append_singleton t r ih =>
    have hstep : analyzeTraffic paths (t ++ [r]) = covStep paths (analyzeTraffic paths t) r := by
      simp [analyzeTraffic, List.foldl_append]
    rw [hstep]
    by_cases hm : isUnmatched paths r = true
    · have hnorm : normalizePathForSchema r.url paths = none := by
        simpa [isUnmatched, Option.isNone_iff_eq_none] using hm
      have hcov : (covStep paths (analyzeTraffic paths t) r).undocumented =
          addStatus (analyzeTraffic paths t).undocumented (undocKey r) r.status := by
        simp [covStep, hnorm, undocKey]
      rw [hcov, ih]
      have hus : (t ++ [r]).filter (isUnmatched paths) =
          t.filter (isUnmatched paths) ++ [r] := by
        simp [List.filter_append, hm]
      have hfun : ∀ k,
          leftDedup ((((t ++ [r]).filter (isUnmatched paths)).filter
              (fun x => decide (undocKey x = k))).map (fun x => x.status)) =
            (if k = undocKey r then
              insertSet (leftDedup (((t.filter (isUnmatched paths)).filter
                (fun x => decide (undocKey x = k))).map (fun x => x.status))) r.status
            else
              leftDedup (((t.filter (isUnmatched paths)).filter
                (fun x => decide (undocKey x = k))).map (fun x => x.status))) := by
        intro k
        rw [hus, List.filter_append]
        by_cases hk : k = undocKey r
        · subst hk
          simp [List.filter_cons, leftDedup_concat]
        · have hrk : ¬ (undocKey r = k) := fun hc => hk hc.symm
          simp [List.filter_cons, hrk, hk]
      rw [specUndoc_def, specUndoc_def, hus, List.map_append]
      simp only [List.map_cons, List.map_nil]
      rw [leftDedup_concat]
      have hmapfix :
          (insertSet (leftDedup ((t.filter (isUnmatched paths)).map undocKey))
            (undocKey r)).map (fun k =>
              (k, leftDedup ((((t.filter (isUnmatched paths)) ++ [r]).filter
                (fun x => decide (undocKey x = k))).map (fun x => x.status)))) =
          (insertSet (leftDedup ((t.filter (isUnmatched paths)).map undocKey))
            (undocKey r)).map (fun k =>
              (k, if k = undocKey r then
                insertSet (leftDedup (((t.filter (isUnmatched paths)).filter
                  (fun x => decide (undocKey x = k))).map (fun x => x.status))) r.status
              else
                leftDedup (((t.filter (isUnmatched paths)).filter
                  (fun x => decide (undocKey x = k))).map (fun x => x.status)))) := by
        apply List.map_congr_left
        intro k _
        have := hfun k
        rw [hus] at this
        rw [this]
      rw [hmapfix]
      by_cases hmem : undocKey r ∈ leftDedup ((t.filter (isUnmatched paths)).map undocKey)
      · rw [show insertSet (leftDedup ((t.filter (isUnmatched paths)).map undocKey))
              (undocKey r) = leftDedup ((t.filter (isUnmatched paths)).map undocKey) by
            simp [insertSet, hmem]]
        rw [addStatus_map_mem _ _ _ _ hmem (nodup_leftDedup _)]
      · rw [show insertSet (leftDedup ((t.filter (isUnmatched paths)).map undocKey))
              (undocKey r) = leftDedup ((t.filter (isUnmatched paths)).map undocKey) ++
                [undocKey r] by simp [insertSet, hmem]]
        rw [addStatus_map_not_mem _ _ _ _ hmem, List.map_append]
        congr 1
        · apply List.map_congr_left
          intro k hk
          have : k ≠ undocKey r := fun hc => hmem (hc ▸ hk)
          simp [this]
        · have hknot : undocKey r ∉ (t.filter (isUnmatched paths)).map undocKey := by
            intro hc
            exact hmem ((mem_leftDedup _ _).mpr hc)
          have hfil := filter_key_eq_nil (t.filter (isUnmatched paths)) (undocKey r) hknot
          rw [List.map_cons, List.map_nil, if_pos rfl, hfil]
          simp [insertSet, leftDedup]
    · have hcov : (covStep paths (analyzeTraffic paths t) r).undocumented =
          (analyzeTraffic paths t).undocumented := by
        unfold covStep
        cases hn : normalizePathForSchema r.url paths with
        | none => exact absurd (by simp [isUnmatched, hn]) hm
        | some p => rfl
      rw [hcov, ih]
      rw [specUndoc_def, specUndoc_def]
      have hus : (t ++ [r]).filter (isUnmatched paths) = t.filter (isUnmatched paths) := by
        simp [List.filter_append, hm]
      rw [hus]

/-- C2 counterexample: a record with a query component in its url matching
no declared template is keyed in the undocumented mapping by the raw url
(GET /demo?x=1); there is no entry under the query-stripped key GET /demo
that the claim requires. -/
theorem c2_counterexample :
    (analyzeTraffic [] [⟨"get", "/demo?x=1", 200, none, none⟩]).undocumented =
      [("GET /demo?x=1", [200])] ∧
    lookupStr (analyzeTraffic [] [⟨"get", "/demo?x=1", 200, none, none⟩]).undocumented
      "GET /demo" = none :=
  ⟨by decide, by decide⟩

theorem startsWithCharsAppend (p a b : List Char) (h : startsWithChars p a = true) :
    startsWithChars p (a ++ b) = true := by
  induction p generalizing a with
  | nil => rfl
  | cons c cs ih =>
    cases a with
    | nil => cases h
    | cons d ds =>
      simp only [startsWithChars, Bool.and_eq_true, decide_eq_true_eq] at h
      simp only [List.cons_append, startsWithChars, Bool.and_eq_true, decide_eq_true_eq]
      exact ⟨h.1, ih ds h.2⟩

theorem strStartsAppend (pre rest : String) (pat : String)
    (h : startsWithChars pat.data pre.data = true) :
    strStarts (pre ++ rest) pat = true := by
  unfold strStarts
  rw [String.data_append]
  exact startsWithCharsAppend _ _ _ h

/-- C6 (corrected): the report is always the header and summary, then the
Undocumented Endpoints section, then the Tested Endpoints section, then the
Missing Coverage section, in that order; Undocumented is omitted when no
traffic is undocumented and Missing Coverage is omitted when no declared
path is completely untested and none is partially covered, but the Tested
Endpoints heading is always emitted, even when no declared template was
hit. -/
theorem c6_section_order (schema : Schema) (traffic : List TrafficRecord) (now : String) :
    (generateReport schema traffic now =
      summarySection schema.paths (analyzeTraffic schema.paths traffic) traffic.length now ++
        undocSection (analyzeTraffic schema.paths traffic) ++
        testedSection (analyzeTraffic schema.paths traffic) ++
        missingSection schema.paths (analyzeTraffic schema.paths traffic)) ∧
    (∀ st : CovState, st.undocumented = [] → undocSection st = "") ∧
    (∀ st : CovState, strStarts (testedSection st) "## ✅ Tested Endpoints" = true) ∧
    (∀ (paths : List (String × PathItem)) (st : CovState),
      untestedPaths paths st = [] → partTestedPaths paths st = [] →
      missingSection paths st = "") := by
  refine ⟨?_, ?_, ?_, ?_⟩
  · by_cases hu : 0 < (analyzeTraffic schema.paths traffic).undocumented.length <;>
      by_cases hms : 0 < (untestedPaths schema.paths (analyzeTraffic schema.paths traffic)).length ∨
        0 < (partTestedPaths schema.paths (analyzeTraffic schema.paths traffic)).length <;>
      simp only [generateReport, summarySection, undocSection, testedSection, missingSection,
        hu, hms, if_true, if_false, ite_true, ite_false, eq_self_iff_true,
        String.append_assoc, String.append_empty, String.empty_append]
  · intro st h
    simp [undocSection, h]
  · intro st
    exact strStartsAppend _ _ _ (by decide)
  · intro paths st h1 h2
    simp [missingSection, h1, h2]

/-- C6 witness at a concrete input: one undocumented record against the
empty specification still renders the Tested Endpoints heading. -/
theorem c6_section_order_witness :
    (generateReport ⟨[]⟩ [⟨"GET", "/y", 201, none, none⟩] "T" =
      summarySection [] (analyzeTraffic [] [⟨"GET", "/y", 201, none, none⟩]) 1 "T" ++
        undocSection (analyzeTraffic [] [⟨"GET", "/y", 201, none, none⟩]) ++
        testedSection (analyzeTraffic [] [⟨"GET", "/y", 201, none, none⟩]) ++
        missingSection [] (analyzeTraffic [] [⟨"GET", "/y", 201, none, none⟩])) ∧
    strStarts (testedSection (analyzeTraffic [] [⟨"GET", "/y", 201, none, none⟩]))
      "## ✅ Tested Endpoints" = true ∧
    undocSection ⟨[], [], []⟩ = "" ∧
    missingSection [] ⟨[], [], []⟩ = "" :=
  ⟨(c6_section_order ⟨[]⟩ [⟨"GET", "/y", 201, none, none⟩] "T").1,
   (c6_section_order ⟨[]⟩ [⟨"GET", "/y", 201, none, none⟩] "T").2.2.1
     (analyzeTraffic [] [⟨"GET", "/y", 201, none, none⟩]),
   (c6_section_order ⟨[]⟩ [⟨"GET", "/y", 201, none, none⟩] "T").2.1 ⟨[], [], []⟩ rfl,
   (c6_section_order ⟨[]⟩ [⟨"GET", "/y", 201, none, none⟩] "T").2.2.2 [] ⟨[], [], []⟩ rfl rfl⟩

set_option maxRecDepth 4096 in
/-- C6 counterexample: with the empty specification and one (undocumented)
traffic record, no declared template was hit, yet the report still contains
the Tested Endpoints section heading, so that section is not omitted when
its backing set is empty. -/
theorem c6_counterexample :
    (analyzeTraffic [] [⟨"GET", "/y", 201, none, none⟩]).testedPaths = [] ∧
    strHas (generateReport ⟨[]⟩ [⟨"GET", "/y", 201, none, none⟩] "T")
      "## ✅ Tested Endpoints" = true :=
  ⟨by decide, by decide⟩

/-- C3 counterexample: the template /a.c contains the regex wildcard dot,
which the source compiles into its pattern unescaped, so the concrete path
/abc (no exact key, different second segment) is matched by the code and
mapped to /a.c, while the segment-equality matcher of the claim returns
none. -/
theorem c3_counterexample :
    normalizePathForSchema "/abc" [("/a.c", (0 : Nat))] = some "/a.c" ∧
    specMatch "/abc" [("/a.c", (0 : Nat))] = none := by
  constructor
  · simp [normalizePathForSchema, stripQuery, tokenize, braceIdx, tokMatch, List.find?]
  · decide

theorem find?_congr {α : Type} (l : List α) (p q : α → Bool)
    (h : ∀ x ∈ l, p x = q x) : l.find? p = l.find? q := by
  induction l with
  | nil => rfl
  | cons a as ih =>
    have ha := h a (List.mem_cons_self a as)
    simp only [List.find?]
    rw [ha]
    cases q a
    · exact ih fun x hx => h x (List.mem_cons_of_mem a hx)
    · rfl

theorem splitChar_ne_nil (sep : Char) (l : List Char) : splitChar sep l ≠ [] := by
  cases l with
  | nil => simp [splitChar]
  | cons c cs =>
    simp only [splitChar]
    cases h : splitChar sep cs with
    | nil => simp
    | cons s rest =>
      by_cases hc : c = sep <;> simp [hc]

theorem splitChar_noSlash (l : List Char) :
    ∀ s ∈ splitChar '/' l, noSlash s = true := by
  induction l with
  | nil =>
    intro s hs
    simp [splitChar] at hs
    simp [hs, noSlash]
  | cons c cs ih =>
    intro s hs
    simp only [splitChar] at hs
    cases h : splitChar '/' cs with
    | nil => exact absurd h (splitChar_ne_nil '/' cs)
    | cons t rest =>
      rw [h] at hs
      by_cases hc : c = '/'
      · simp only [hc, if_pos rfl] at hs
        rcases List.mem_cons.mp hs with rfl | hmem
        · simp [noSlash]
        · exact ih s (h ▸ hmem)
      · simp only [if_neg hc] at hs
        rcases List.mem_cons.mp hs with rfl | hmem
        · have ht : noSlash t = true := ih t (h ▸ List.mem_cons_self t rest)
          simp only [noSlash, List.all_cons, Bool.and_eq_true, decide_eq_true_eq]
          exact ⟨hc, by simpa [noSlash] using ht⟩
        · exact ih s (h ▸ List.mem_cons_of_mem t hmem)

theorem splitChar_of_noSlash (l : List Char) (h : noSlash l = true) :
    splitChar '/' l = [l] := by
  induction l with
  | nil => rfl
  | cons c cs ih =>
    simp only [noSlash, List.all_cons, Bool.and_eq_true, decide_eq_true_eq] at h
    have hr := ih h.2
    simp [splitChar, hr, h.1]

theorem splitChar_append_slash (pre post : List Char) (h : noSlash pre = true) :
    splitChar '/' (pre ++ '/' :: post) = pre :: splitChar '/' post := by
  induction pre with
  | nil =>
    simp only [List.nil_append, splitChar]
    cases hs : splitChar '/' post with
    | nil => exact absurd hs (splitChar_ne_nil '/' post)
    | cons s rest => simp
  | cons c cs ih =>
    simp only [noSlash, List.all_cons, Bool.and_eq_true, decide_eq_true_eq] at h
    have hr := ih h.2
    simp only [List.cons_append, splitChar]
    rw [show splitChar '/' (cs.append ('/' :: post)) = cs :: splitChar '/' post from hr]
    simp [h.1]

theorem afterSlash_none_iff (c : List Char) : afterSlash c = none ↔ noSlash c = true := by
  induction c with
  | nil => simp [afterSlash, noSlash]
  | cons d ds ih =>
    by_cases hd : d = '/'
    · simp [afterSlash, hd, noSlash]
    · simp only [afterSlash, if_neg hd]
      cases h : afterSlash ds with
      | some pr =>
        obtain ⟨pre, post⟩ := pr
        have hns : noSlash ds = false := by
          cases hb : noSlash ds
          · rfl
          · rw [ih.mpr hb] at h ; cases h
        simp only [noSlash, List.all_cons, Bool.and_eq_true, decide_eq_true_eq]
        constructor
        · intro hc ; cases hc
        · intro hc
          rw [show (ds.all fun x => decide (x ≠ '/')) = noSlash ds from rfl, hns] at hc
          cases hc.2
      | none =>
        have hns := ih.mp h
        simp only [noSlash, List.all_cons, Bool.and_eq_true, decide_eq_true_eq]
        constructor
        · intro _
          exact ⟨hd, by simpa [noSlash] using hns⟩
        · intro _ ; trivial

theorem afterSlash_some (c pre post : List Char) (h : afterSlash c = some (pre, post)) :
    c = pre ++ '/' :: post ∧ noSlash pre = true := by
  induction c generalizing pre with
  | nil => cases h
  | cons d ds ih =>
    by_cases hd : d = '/'
    · rw [afterSlash, if_pos hd] at h
      cases h
      subst hd
      exact ⟨rfl, rfl⟩
    · rw [afterSlash, if_neg hd] at h
      cases hds : afterSlash ds with
      | none => rw [hds] at h ; cases h
      | some pr =>
        rw [hds] at h
        cases pr with
        | mk pre' post' =>
          cases h
          rcases ih pre' hds with ⟨hc, hn⟩
          constructor
          · simp [hc]
          · simp only [noSlash, List.all_cons, Bool.and_eq_true, decide_eq_true_eq]
            exact ⟨hd, by simpa [noSlash] using hn⟩

theorem tokMatch_nil_toks (c : List Char) : tokMatch c [] = decide (c = []) := by
  cases c <;> simp [tokMatch]

theorem tokMatch_lit_end (s : List Char) : ∀ c, tokMatch c (s.map PTok.lit) = decide (s = c) := by
  induction s with
  | nil => intro c ; cases c <;> simp [tokMatch]
  | cons a s' ih =>
    intro c
    cases c with
    | nil => simp [tokMatch]
    | cons d c' => simp [tokMatch, ih, List.cons.injEq, Bool.decide_and]

theorem tokMatch_lit_slash (s : List Char) (T : List PTok) :
    ∀ c, noSlash s = true →
      tokMatch c (s.map PTok.lit ++ PTok.lit '/' :: T) =
        (match afterSlash c with
         | some (pre, post) => decide (s = pre) && tokMatch post T
         | none => false) := by
  induction s with
  | nil =>
    intro c _
    cases c with
    | nil => simp [tokMatch, afterSlash]
    | cons d c' =>
      by_cases hd : d = '/'
      · subst hd
        simp [tokMatch, afterSlash]
      · have hdd : ('/' : Char) ≠ d := fun hc => hd hc.symm
        simp only [List.map_nil, List.nil_append, tokMatch, afterSlash, if_neg hd]
        cases h : afterSlash c' with
        | some pr =>
          obtain ⟨pre, post⟩ := pr
          simp [hdd]
        | none => simp [hdd]
  | cons a s' ih =>
    intro c hs
    have ha : a ≠ '/' ∧ noSlash s' = true := by
      simpa [noSlash] using hs
    cases c with
    | nil => simp [tokMatch, afterSlash]
    | cons d c' =>
      by_cases hd : d = '/'
      · subst hd
        simp only [List.map_cons, List.cons_append, tokMatch, afterSlash, if_pos rfl]
        simp [ha.1]
      · simp only [List.map_cons, List.cons_append, List.append_eq, tokMatch, afterSlash,
          if_neg hd]
        rw [ih c' ha.2]
        cases h : afterSlash c' with
        | some pr =>
          obtain ⟨pre, post⟩ := pr
          simp [List.cons.injEq, Bool.decide_and, Bool.and_assoc]
        | none => simp

theorem tokMatch_ph_slash (T : List PTok) :
    ∀ c, tokMatch c (PTok.ph :: PTok.lit '/' :: T) =
      (match afterSlash c with
       | some (pre, post) => decide (pre ≠ []) && tokMatch post T
       | none => false) := by
  intro c
  induction c with
  | nil => simp [tokMatch, afterSlash]
  | cons d c' ih =>
    by_cases hd : d = '/'
    · subst hd
      simp [tokMatch, afterSlash]
    · simp only [tokMatch, afterSlash, if_neg hd]
      have h1 := tokMatch_lit_slash [] T c' (by simp [noSlash])
      simp only [List.map_nil, List.nil_append] at h1
      rw [h1, ih]
      cases h : afterSlash c' with
      | some pr =>
        obtain ⟨pre, post⟩ := pr
        cases pre <;> simp [hd]
      | none => simp [hd]

theorem tokMatch_ph_end : ∀ c, tokMatch c [PTok.ph] = (decide (c ≠ []) && noSlash c) := by
  intro c
  induction c with
  | nil => simp [tokMatch, noSlash]
  | cons d c' ih =>
    simp only [tokMatch, tokMatch_nil_toks]
    rw [ih]
    cases c' <;> simp [noSlash]

theorem tokensOfSegs_cons (s s' : List Char) (rest : List (List Char)) :
    tokensOfSegs (s :: s' :: rest) = segTokens s ++ PTok.lit '/' :: tokensOfSegs (s' :: rest) := by
  rfl

/-- Bridge between the token matcher and the segmentwise matcher of the
specification, over safe slash-free segments. -/
theorem tokMatch_tokensOfSegs :
    ∀ segs : List (List Char), segs ≠ [] → segs.all safeSeg = true →
      segs.all noSlash = true →
      ∀ c, tokMatch c (tokensOfSegs segs) =
        (decide (segs.length = (splitChar '/' c).length) &&
          ((segs.zip (splitChar '/' c)).all fun p => specSegMatches p.1 p.2)) := by
  intro segs
  induction segs with
  | nil => intro h ; cases h rfl
  | cons s rest ih =>
    intro _ hsafe hns c
    have hs : safeSeg s = true ∧ rest.all safeSeg = true := by simpa using hsafe
    have hn : noSlash s = true ∧ rest.all noSlash = true := by simpa using hns
    cases rest with
    | nil =>
      by_cases hph : isPlaceholderSeg s = true
      · rw [show tokensOfSegs [s] = segTokens s from rfl,
            show segTokens s = [PTok.ph] by simp [segTokens, hph]]
        rw [tokMatch_ph_end c]
        cases hnc : noSlash c with
        | true =>
          rw [splitChar_of_noSlash c hnc]
          simp [specSegMatches, hph]
        | false =>
          have hne : afterSlash c ≠ none := by
            rw [Ne, afterSlash_none_iff, hnc]
            simp
          cases hA : afterSlash c with
          | none => exact absurd hA hne
          | some pr =>
            obtain ⟨pre, post⟩ := pr
            rcases afterSlash_some c pre post hA with ⟨hc, hpre⟩
            subst hc
            rw [splitChar_append_slash pre post hpre]
            have hlen : (splitChar '/' post).length ≠ 0 := fun h0 =>
              splitChar_ne_nil '/' post (List.length_eq_zero.mp h0)
            have hll : decide (([s] : List (List Char)).length =
                (pre :: splitChar '/' post).length) = false := by
              simp only [decide_eq_false_iff_not, List.length_cons, List.length_nil]
              omega
            rw [hll]
            simp
      · have hlit : s.all safeChar = true := by
          have h0 := hs.1
          simp only [safeSeg, Bool.or_eq_true] at h0
          exact h0.resolve_left hph
        rw [show tokensOfSegs [s] = segTokens s from rfl,
            show segTokens s = s.map PTok.lit by simp [segTokens, hph]]
        rw [tokMatch_lit_end s c]
        cases hnc : noSlash c with
        | true =>
          rw [splitChar_of_noSlash c hnc]
          simp [specSegMatches, hph]
        | false =>
          have hsc : decide (s = c) = false := by
            rw [decide_eq_false_iff_not]
            intro he
            rw [he] at hn
            rw [hn.1] at hnc
            cases hnc
          have hne : afterSlash c ≠ none := by
            rw [Ne, afterSlash_none_iff, hnc]
            simp
          cases hA : afterSlash c with
          | none => exact absurd hA hne
          | some pr =>
            obtain ⟨pre, post⟩ := pr
            rcases afterSlash_some c pre post hA with ⟨hc, hpre⟩
            subst hc
            rw [splitChar_append_slash pre post hpre]
            have hlen : (splitChar '/' post).length ≠ 0 := fun h0 =>
              splitChar_ne_nil '/' post (List.length_eq_zero.mp h0)
            have hll : decide (([s] : List (List Char)).length =
                (pre :: splitChar '/' post).length) = false := by
              simp only [decide_eq_false_iff_not, List.length_cons, List.length_nil]
              omega
            rw [hsc, hll]
            simp
    | cons s' rest' =>
      have ihr := ih (by simp) hs.2 hn.2
      by_cases hph : isPlaceholderSeg s = true
      · rw [tokensOfSegs_cons,
            show segTokens s = [PTok.ph] by simp [segTokens, hph],
            show ([PTok.ph] ++ PTok.lit '/' :: tokensOfSegs (s' :: rest')) =
              PTok.ph :: PTok.lit '/' :: tokensOfSegs (s' :: rest') from rfl,
            tokMatch_ph_slash]
        cases hA : afterSlash c with
        | none =>
          have hnc : noSlash c = true := (afterSlash_none_iff c).mp hA
          rw [splitChar_of_noSlash c hnc]
          have hll : decide ((s :: s' :: rest').length = ([c] : List (List Char)).length) =
              false := by
            simp only [decide_eq_false_iff_not, List.length_cons, List.length_nil]
            omega
          rw [hll]
          simp
        | some pr =>
          obtain ⟨pre, post⟩ := pr
          rcases afterSlash_some c pre post hA with ⟨hc, hpre⟩
          subst hc
          rw [splitChar_append_slash pre post hpre]
          dsimp only
          rw [ihr post]
          have h1 : specSegMatches s pre = decide (pre ≠ []) := by
            simp [specSegMatches, hph]
          have h2 : decide ((s :: s' :: rest').length = (pre :: splitChar '/' post).length) =
              decide ((s' :: rest').length = (splitChar '/' post).length) := by
            rw [decide_eq_decide]
            simp only [List.length_cons]
            omega
          simp only [List.zip_cons_cons, List.all_cons, h1, h2]
          cases decide (pre ≠ []) <;>
            cases decide ((s' :: rest').length = (splitChar '/' post).length) <;>
            simp
      · have hlit : s.all safeChar = true := by
          have h0 := hs.1
          simp only [safeSeg, Bool.or_eq_true] at h0
          exact h0.resolve_left hph
        rw [tokensOfSegs_cons,
            show segTokens s = s.map PTok.lit by simp [segTokens, hph],
            tokMatch_lit_slash s (tokensOfSegs (s' :: rest')) c hn.1]
        cases hA : afterSlash c with
        | none =>
          have hnc : noSlash c = true := (afterSlash_none_iff c).mp hA
          rw [splitChar_of_noSlash c hnc]
          have hll : decide ((s :: s' :: rest').length = ([c] : List (List Char)).length) =
              false := by
            simp only [decide_eq_false_iff_not, List.length_cons, List.length_nil]
            omega
          rw [hll]
          simp
        | some pr =>
          obtain ⟨pre, post⟩ := pr
          rcases afterSlash_some c pre post hA with ⟨hc, hpre⟩
          subst hc
          rw [splitChar_append_slash pre post hpre]
          dsimp only
          rw [ihr post]
          have h1 : specSegMatches s pre = decide (s = pre) := by
            simp [specSegMatches, hph]
          have h2 : decide ((s :: s' :: rest').length = (pre :: splitChar '/' post).length) =
              decide ((s' :: rest').length = (splitChar '/' post).length) := by
            rw [decide_eq_decide]
            simp only [List.length_cons]
            omega
          simp only [List.zip_cons_cons, List.all_cons, h1, h2]
          cases decide (s = pre) <;>
            cases decide ((s' :: rest').length = (splitChar '/' post).length) <;>
            simp

theorem tokenize_cons_lit (c : Char) (rest : List Char) (h1 : c ≠ '\x7b') (h2 : c ≠ '.') :
    tokenize (c :: rest) = PTok.lit c :: tokenize rest := by
  rw [tokenize]
  simp [h1, h2]

theorem tokenize_cons_brace (rest : List Char) (k : Nat) (h : braceIdx rest = some k) :
    tokenize ('\x7b' :: rest) = PTok.ph :: tokenize (rest.drop (k + 1)) := by
  rw [tokenize]
  simp [h]

theorem takeWhile_append_stop (p : Char → Bool) (xs : List Char) (y : Char) (ys : List Char)
    (hall : xs.all p = true) (hy : p y = false) :
    (xs ++ y :: ys).takeWhile p = xs := by
  induction xs with
  | nil => simp [List.takeWhile_cons, hy]
  | cons x xs' ih =>
    have hx : p x = true ∧ xs'.all p = true := by simpa using hall
    simp [List.takeWhile_cons, hx.1, ih hx.2]

theorem braceIdx_mid (mid : List Char) (r : List Char) (hne : mid ≠ [])
    (hmid : mid.all (fun c => decide (c ≠ '\x7d')) = true) :
    braceIdx (mid ++ '\x7d' :: r) = some mid.length := by
  unfold braceIdx
  rw [takeWhile_append_stop _ mid '\x7d' r hmid (by simp)]
  have h1 : mid.length ≠ 0 := fun h0 => hne (List.length_eq_zero.mp h0)
  have h2 : mid.length ≠ (mid ++ '\x7d' :: r).length := by
    simp only [List.length_append, List.length_cons]
    omega
  simp [h1, h2]

theorem placeholder_shape (s : List Char) (h : isPlaceholderSeg s = true) :
    ∃ mid, s = '\x7b' :: (mid ++ ['\x7d']) ∧ mid ≠ [] ∧
      mid.all (fun c => decide (c ≠ '\x7d')) = true := by
  cases s with
  | nil => cases h
  | cons c rest =>
    by_cases hc : c = '\x7b'
    · subst hc
      simp only [isPlaceholderSeg, Bool.and_eq_true, decide_eq_true_eq] at h
      obtain ⟨⟨hlen, hlast⟩, hall⟩ := h
      have hrne : rest ≠ [] := by
        intro h0
        rw [h0] at hlen
        simp at hlen
      have hsplit := List.dropLast_append_getLast hrne
      have hlastc : rest.getLast hrne = '\x7d' := by
        have := List.getLast?_eq_getLast rest hrne
        rw [this] at hlast
        exact Option.some.inj hlast
      refine ⟨rest.dropLast, ?_, ?_, hall⟩
      · have hr : rest = rest.dropLast ++ ['\x7d'] := by
          conv_lhs => rw [← hsplit]
          rw [hlastc]
        exact congrArg (fun l => '\x7b' :: l) hr
      · intro h0
        have := congrArg List.length hsplit
        rw [h0] at this
        simp at this
        omega
    · simp [isPlaceholderSeg, hc] at h

theorem tokenize_lit_append (s : List Char)
    (hall : s.all (fun c => decide (c ≠ '\x7b') && decide (c ≠ '.')) = true) :
    ∀ r, tokenize (s ++ r) = s.map PTok.lit ++ tokenize r := by
  induction s with
  | nil => intro r ; rfl
  | cons c s' ih =>
    intro r
    have hc : (c ≠ '\x7b' ∧ c ≠ '.') ∧
        s'.all (fun c => decide (c ≠ '\x7b') && decide (c ≠ '.')) = true := by
      simpa using hall
    rw [List.cons_append, tokenize_cons_lit c _ hc.1.1 hc.1.2, ih hc.2 r, List.map_cons,
      List.cons_append]

theorem tokenize_ph_append (mid : List Char) (hne : mid ≠ [])
    (hmid : mid.all (fun c => decide (c ≠ '\x7d')) = true) :
    ∀ r, tokenize (('\x7b' :: (mid ++ ['\x7d'])) ++ r) = PTok.ph :: tokenize r := by
  intro r
  have hsh : ('\x7b' :: (mid ++ ['\x7d'])) ++ r = '\x7b' :: (mid ++ '\x7d' :: r) := by
    simp
  rw [hsh, tokenize_cons_brace _ mid.length (braceIdx_mid mid r hne hmid)]
  congr 1
  have hd := List.drop_left (mid ++ ['\x7d']) r
  rw [show mid ++ '\x7d' :: r = (mid ++ ['\x7d']) ++ r by simp]
  rw [show (mid ++ ['\x7d']).length = mid.length + 1 by simp] at hd
  exact congrArg tokenize hd

theorem intercalate_splitChar (sep : Char) (l : List Char) :
    intercalateChar sep (splitChar sep l) = l := by
  induction l with
  | nil => rfl
  | cons c cs ih =>
    simp only [splitChar]
    cases h : splitChar sep cs with
    | nil => exact absurd h (splitChar_ne_nil sep cs)
    | cons s rest =>
      rw [h] at ih
      dsimp only
      by_cases hc : c = sep
      · rw [if_pos hc]
        rw [show intercalateChar sep ([] :: s :: rest) =
            [] ++ sep :: intercalateChar sep (s :: rest) from rfl, ih, hc]
        rfl
      · rw [if_neg hc]
        cases rest with
        | nil =>
          simp only [intercalateChar] at ih ⊢
          rw [ih]
        | cons t rest2 =>
          simp only [intercalateChar] at ih ⊢
          rw [List.cons_append, ih]

theorem safeChar_lit (s : List Char) (h : s.all safeChar = true) :
    s.all (fun c => decide (c ≠ '\x7b') && decide (c ≠ '.')) = true := by
  rw [List.all_eq_true] at h ⊢
  intro x hx
  have := h x hx
  simp only [safeChar, Bool.and_eq_true, decide_eq_true_eq] at this
  simp only [Bool.and_eq_true, decide_eq_true_eq]
  exact ⟨by tauto, by tauto⟩

theorem tokenize_intercalate (segs : List (List Char)) :
    segs ≠ [] → segs.all safeSeg = true →
      tokenize (intercalateChar '/' segs) = tokensOfSegs segs := by
  induction segs with
  | nil => intro h ; cases h rfl
  | cons s rest ih =>
    intro _ hsafe
    have hs : safeSeg s = true ∧ rest.all safeSeg = true := by simpa using hsafe
    cases rest with
    | nil =>
      by_cases hph : isPlaceholderSeg s = true
      · rcases placeholder_shape s hph with ⟨mid, hshape, hne, hmid⟩
        have htok := tokenize_ph_append mid hne hmid []
        rw [List.append_nil] at htok
        rw [show intercalateChar '/' [s] = s from rfl,
            show tokensOfSegs [s] = segTokens s from rfl,
            show segTokens s = [PTok.ph] by simp [segTokens, hph],
            hshape, htok]
        simp [tokenize]
      · have hlit : s.all safeChar = true := by
          have h0 := hs.1
          simp only [safeSeg, Bool.or_eq_true] at h0
          exact h0.resolve_left hph
        have htok := tokenize_lit_append s (safeChar_lit s hlit) []
        rw [List.append_nil] at htok
        rw [show intercalateChar '/' [s] = s from rfl,
            show tokensOfSegs [s] = segTokens s from rfl,
            show segTokens s = s.map PTok.lit by simp [segTokens, hph],
            htok]
        simp [tokenize]
    | cons s' rest' =>
      have ihr := ih (by simp) hs.2
      have hj : intercalateChar '/' (s :: s' :: rest') =
          s ++ '/' :: intercalateChar '/' (s' :: rest') := rfl
      by_cases hph : isPlaceholderSeg s = true
      · rcases placeholder_shape s hph with ⟨mid, hshape, hne, hmid⟩
        rw [tokensOfSegs_cons, show segTokens s = [PTok.ph] by simp [segTokens, hph], hj,
          hshape, tokenize_ph_append mid hne hmid, tokenize_cons_lit '/' _
          (by decide) (by decide), ihr]
        rfl
      · have hlit : s.all safeChar = true := by
          have h0 := hs.1
          simp only [safeSeg, Bool.or_eq_true] at h0
          exact h0.resolve_left hph
        rw [tokensOfSegs_cons, show segTokens s = s.map PTok.lit by simp [segTokens, hph], hj,
          tokenize_lit_append s (safeChar_lit s hlit), tokenize_cons_lit '/' _
          (by decide) (by decide), ihr]

theorem normalizePathForSchema_def {α : Type} (url : String) (ps : List (String × α)) :
    normalizePathForSchema url ps =
      if ps.any (fun kv => decide (kv.1 = stripQuery url)) then some (stripQuery url)
      else (ps.map Prod.fst).find? (fun p => tokMatch (stripQuery url).data (tokenize p.data)) :=
  rfl

theorem specMatch_def {α : Type} (url : String) (ps : List (String × α)) :
    specMatch url ps =
      if ps.any (fun kv => decide (kv.1 = stripQuery url)) then some (stripQuery url)
      else (ps.map Prod.fst).find? (fun p => specTemplateMatches p.data (stripQuery url).data) :=
  rfl

/-- C3 (corrected): for specifications whose path templates are free of
regex metacharacters outside whole-segment placeholders, the path matcher
strips the query, returns the cleaned path when it is a specification key,
and otherwise returns the first declared template, in declared order, whose
segment count equals the concrete one and whose non-placeholder segments
equal the corresponding concrete segments, placeholders matching exactly
one non-empty segment; without that proviso the unescaped metacharacters
are interpreted as regex (see the counterexample). -/
theorem c3_safe_templates_match_spec {α : Type} (url : String) (ps : List (String × α))
    (hsafe : ∀ kv ∈ ps, safeTemplate kv.1 = true) :
    normalizePathForSchema url ps = specMatch url ps := by
  rw [normalizePathForSchema_def, specMatch_def]
  have hfind : (ps.map Prod.fst).find?
      (fun p => tokMatch (stripQuery url).data (tokenize p.data)) =
      (ps.map Prod.fst).find?
        (fun p => specTemplateMatches p.data (stripQuery url).data) := by
    apply find?_congr
    intro p hp
    rcases List.mem_map.mp hp with ⟨kv, hkv, rfl⟩
    have hst := hsafe kv hkv
    have hsegs_ne := splitChar_ne_nil '/' kv.1.data
    have hsegs_safe : (splitChar '/' kv.1.data).all safeSeg = true := hst
    have hsegs_ns : (splitChar '/' kv.1.data).all noSlash = true := by
      rw [List.all_eq_true]
      intro x hx
      exact splitChar_noSlash kv.1.data x hx
    have htok : tokenize kv.1.data = tokensOfSegs (splitChar '/' kv.1.data) := by
      conv_lhs => rw [← intercalate_splitChar '/' kv.1.data]
      exact tokenize_intercalate _ hsegs_ne hsegs_safe
    rw [htok, tokMatch_tokensOfSegs _ hsegs_ne hsegs_safe hsegs_ns]
    rfl
  rw [hfind]

/-- C3 witness: a concrete parameterized template with a query-carrying
url, matched identically by the source matcher and the specification
matcher. -/
theorem c3_safe_templates_match_spec_witness :
    (∀ kv ∈ [("/items/\x7bid\x7d", (0 : Nat))], safeTemplate kv.1 = true) ∧
    normalizePathForSchema "/items/42?q=1" [("/items/\x7bid\x7d", (0 : Nat))] =
      specMatch "/items/42?q=1" [("/items/\x7bid\x7d", (0 : Nat))] ∧
    specMatch "/items/42?q=1" [("/items/\x7bid\x7d", (0 : Nat))] =
      some "/items/\x7bid\x7d" :=
  ⟨by decide,
   c3_safe_templates_match_spec "/items/42?q=1" [("/items/\x7bid\x7d", (0 : Nat))] (by decide),
   by decide⟩

end Audit
